import Mathlib

/-!
Verification of the timezone-aware RRULE library.

The embedding models:
* JS numbers that arise here (integers or NaN) as `JSNum`;
* JS `Date` values as `Option Int` (seconds since the Unix epoch, `none` for
  an Invalid Date);
* Luxon `DateTime` values as `Option DT` (an instant plus a fixed-offset
  zone, `none` for an Invalid DateTime) — time zones are modelled by their
  offset in minutes, the trusted external date-time capability;
* JS exceptions as an outer `Option` layer (`none` = a fault was raised);
* the textual rule grammar over `List Char`, with the two regular
  expressions of the source implemented as leftmost-match scans.

Both shipped implementations are embedded: the class-based one
(`parseRRuleStringC`, `generateDailyDatesC`, …, `getDatesWithCustomTimezoneC`)
and the closure-based hook (`parseRRuleStringH`, …,
`getDatesWithCustomTimezoneH`).  They share only the primitive string and
date-time operations, mirroring the duplication in the source.
-/

namespace RRuleTZ

/-- A JavaScript number as it occurs in this code: an integer or NaN. -/
inductive JSNum where
  | int (n : Int)
  | nan
deriving DecidableEq, Repr

/-- Frequency enum of the source (`TimezoneFrequency`). -/
inductive Frequency where
  | DAILY | WEEKLY | MONTHLY | YEARLY
deriving DecidableEq, Repr

/-- The parsed recurrence options (`TimezoneRecurrenceOptions`).
`dtstart` and the inner layer of `until` are JS `Date`s: `none` is an
Invalid Date.  The outer layer of `until` records whether the field was
assigned at all. -/
structure Options where
  freq : Frequency
  interval : JSNum
  dtstart : Option Int
  untl : Option (Option Int)
  wkst : Int
  byweekday : Option (List Int)
  bysetpos : Option (List JSNum)
  count : Option JSNum
deriving DecidableEq, Repr

/-- A valid Luxon DateTime: an instant (seconds since epoch) together with
a fixed zone offset in minutes east of UTC. -/
structure DT where
  instant : Int
  offset : Int
deriving DecidableEq, Repr

/-- A civil time of day, the result of `DateTime.fromISO(startTime)` as far
as the generators consult it (only hour/minute/second are read). -/
structure HMS where
  hour : Int
  minute : Int
  second : Int
deriving DecidableEq, Repr

/-- The content of one emitted ISO string: civil fields plus zone offset. -/
structure ZDT where
  year : Int
  month : Int
  day : Int
  hour : Int
  minute : Int
  second : Int
  offset : Int
deriving DecidableEq, Repr

/-- Civil date triple. -/
structure Civil where
  year : Int
  month : Int
  day : Int
deriving DecidableEq, Repr

/-! ### Character-list utilities (the JS string built-ins used) -/

/-- Drop an expected literal from the front, `none` if it does not match. -/
def dropLit : List Char → List Char → Option (List Char)
  | [], cs => some cs
  | _ :: _, [] => none
  | l :: ls, c :: cs => if c = l then dropLit ls cs else none

/-- Grab exactly `k` decimal digits from the front. -/
def grabDigits : Nat → List Char → Option (List Char × List Char)
  | 0, cs => some ([], cs)
  | _ + 1, [] => none
  | k + 1, c :: cs =>
    if c.isDigit then (grabDigits k cs).map (fun p => (c :: p.1, p.2)) else none

/-- Leftmost-match regex scan: try the matcher at every position, keeping
the first success (JS `String.prototype.match` without the global flag). -/
def scanFor (f : List Char → Option α) : List Char → Option α
  | [] => f []
  | c :: cs =>
    match f (c :: cs) with
    | some r => some r
    | none => scanFor f cs

def dtstartLit : List Char := ['D','T','S','T','A','R','T',';','T','Z','I','D','=']

def rruleLit : List Char := ['R','R','U','L','E',':']

/-- Attempt `DTSTART;TZID=([^:]+):(\d{8}T\d{6})` at this position, returning
the two capture groups. -/
def dtstartAt (cs : List Char) : Option (List Char × List Char) :=
  match dropLit dtstartLit cs with
  | none => none
  | some r1 =>
    let zid := r1.takeWhile (· ≠ ':')
    if zid = [] then none
    else
      match r1.dropWhile (· ≠ ':') with
      | [] => none
      | c :: r3 =>
        if c = ':' then
          match grabDigits 8 r3 with
          | none => none
          | some (d8, r4) =>
            match r4 with
            | [] => none
            | t :: r5 =>
              if t = 'T' then
                match grabDigits 6 r5 with
                | none => none
                | some (d6, _) => some (zid, d8 ++ 'T' :: d6)
              else none
        else none

/-- `rRuleString.match(/DTSTART;TZID=([^:]+):(\d{8}T\d{6})/)`. -/
def matchDtstart (s : List Char) : Option (List Char × List Char) :=
  scanFor dtstartAt s

/-- Attempt `RRULE:(.+)` at this position (`.` does not cross a newline). -/
def rruleAt (cs : List Char) : Option (List Char) :=
  match dropLit rruleLit cs with
  | none => none
  | some r =>
    let cap := r.takeWhile (· ≠ '\n')
    if cap = [] then none else some cap

/-- `rRuleString.match(/RRULE:(.+)/)`. -/
def matchRRule (s : List Char) : Option (List Char) :=
  scanFor rruleAt s

/-- JS `String.prototype.split` with a one-character separator. -/
def splitOnCh (sep : Char) : List Char → List (List Char)
  | [] => [[]]
  | c :: cs =>
    if c = sep then [] :: splitOnCh sep cs
    else
      match splitOnCh sep cs with
      | [] => [[c]]
      | p :: ps => (c :: p) :: ps

/-- `const [key, value] = part.split("=")`: the key. -/
def keyOf (part : List Char) : List Char := (splitOnCh '=' part).headD []

/-- `const [key, value] = part.split("=")`: the value (`none` = undefined). -/
def valOf (part : List Char) : Option (List Char) := (splitOnCh '=' part).get? 1

/-- Decimal value of a digit string. -/
def digitsVal (ds : List Char) : Int :=
  ds.foldl (fun a c => a * 10 + ((c.toNat : Int) - 48)) 0

/-- The digit-eating core of `parseInt`. -/
def parseIntCore (cs : List Char) : JSNum :=
  let ds := cs.takeWhile Char.isDigit
  if ds = [] then .nan else .int (digitsVal ds)

/-- JS `parseInt` on a string (radix 10 inputs as used here). -/
def parseIntStr (cs : List Char) : JSNum :=
  match cs.dropWhile (· = ' ') with
  | [] => parseIntCore []
  | c :: r =>
    if c = '-' then
      match parseIntCore r with
      | .int n => .int (-n)
      | .nan => .nan
    else if c = '+' then parseIntCore r
    else parseIntCore (c :: r)

/-- `parseInt` applied to a possibly-undefined value (`parseInt(undefined)`
is NaN). -/
def parseIntJS : Option (List Char) → JSNum
  | none => .nan
  | some cs => parseIntStr cs

/-- JS `str.substring(a, b)` for `a ≤ b`. -/
def jsSubstring (a b : Nat) (cs : List Char) : List Char :=
  (cs.drop a).take (b - a)

/-- JS `x || d` on a number, as used for the UNTIL time defaults:
0 and NaN are falsy. -/
def jsOrInt (n : JSNum) (d : Int) : Int :=
  match n with
  | .int v => if v = 0 then d else v
  | .nan => d

/-! ### Calendar arithmetic (the trusted date-time capability) -/

def isLeap (y : Int) : Bool := (y % 4 = 0 && y % 100 != 0) || y % 400 = 0

def daysInMonth (y m : Int) : Int :=
  if m = 2 then (if isLeap y then 29 else 28)
  else if m = 4 ∨ m = 6 ∨ m = 9 ∨ m = 11 then 30
  else 31

/-- Days since the Unix epoch of a civil date (months 1–12; the day may be
any integer, counting on from the first of the month). -/
def daysFromCivil (y m d : Int) : Int :=
  let y' := if m ≤ 2 then y - 1 else y
  let era := y'.ediv 400
  let yoe := y' - era * 400
  let mp := (m + 9).emod 12
  let doy := (153 * mp + 2).ediv 5 + d - 1
  let doe := yoe * 365 + yoe.ediv 4 - yoe.ediv 100 + doy
  era * 146097 + doe - 719468

/-- Civil date of a day count since the Unix epoch. -/
def civilFromDays (z : Int) : Civil :=
  let z' := z + 719468
  let era := z'.ediv 146097
  let doe := z' - era * 146097
  let yoe := (doe - doe.ediv 1460 + doe.ediv 36524 - doe.ediv 146096).ediv 365
  let y := yoe + era * 400
  let doy := doe - (365 * yoe + yoe.ediv 4 - yoe.ediv 100)
  let mp := (5 * doy + 2).ediv 153
  let d := doy - (153 * mp + 2).ediv 5 + 1
  let m := if mp < 10 then mp + 3 else mp - 9
  ⟨if m ≤ 2 then y + 1 else y, m, d⟩

/-! ### DateTime operations -/

def localSecs (d : DT) : Int := d.instant + d.offset * 60

def localDays (d : DT) : Int := (localSecs d).ediv 86400

def secOfDay (d : DT) : Int := (localSecs d).emod 86400

/-- Luxon `weekday`: ISO numbering, 1 = Monday … 7 = Sunday. -/
def luxWeekday (d : DT) : Int := (localDays d + 3).emod 7 + 1

/-- Civil date of a DateTime in its own zone. -/
def civilAt (d : DT) : Civil := civilFromDays (localDays d)

/-- Build a DateTime from civil fields in a fixed-offset zone. -/
def mkLocal (y m dd h mi s off : Int) : DT :=
  ⟨daysFromCivil y m dd * 86400 + h * 3600 + mi * 60 + s - off * 60, off⟩

/-- Validity test performed by Luxon `set` for hour/minute/second. -/
def hmsOK (t : HMS) : Bool :=
  0 ≤ t.hour && t.hour ≤ 23 && 0 ≤ t.minute && t.minute ≤ 59 &&
    0 ≤ t.second && t.second ≤ 59

/-- `dt.set({hour, minute, second})`: overwrite the civil time of day in the
current zone.  An unparsable `startTime` (`none`) or out-of-range fields give
an Invalid DateTime. -/
def setHMS (t : Option HMS) : Option DT → Option DT
  | none => none
  | some d =>
    match t with
    | none => none
    | some t =>
      if hmsOK t then
        some ⟨localDays d * 86400 + t.hour * 3600 + t.minute * 60 + t.second
                - d.offset * 60, d.offset⟩
      else none

/-- `dt.setZone(tz)`: same instant, new offset. -/
def setZone (off : Int) : Option DT → Option DT :=
  Option.map fun d => ⟨d.instant, off⟩

/-- `DateTime.fromJSDate(d)`: interpreted in the system zone `sysOff`. -/
def fromJSDate (j : Option Int) (sysOff : Int) : Option DT :=
  j.map fun i => ⟨i, sysOff⟩

/-- `dt.toJSDate()`. -/
def toJSDate : Option DT → Option Int :=
  Option.map DT.instant

/-- JS `a > b` on `Date`s (false whenever either is Invalid). -/
def jsGTdate (a b : Option Int) : Bool :=
  match a, b with
  | some x, some y => decide (y < x)
  | _, _ => false

/-- JS `a >= b` on `Date`s (false whenever either is Invalid). -/
def jsGEdate (a b : Option Int) : Bool :=
  match a, b with
  | some x, some y => decide (y ≤ x)
  | _, _ => false

/-- `dt.plus({days: n})` in a fixed-offset zone. -/
def plusDays (n : JSNum) : Option DT → Option DT
  | none => none
  | some d =>
    match n with
    | .int k => some ⟨d.instant + k * 86400, d.offset⟩
    | .nan => none

/-- `dt.plus({weeks: n})` in a fixed-offset zone. -/
def plusWeeks (n : JSNum) : Option DT → Option DT
  | none => none
  | some d =>
    match n with
    | .int k => some ⟨d.instant + k * 7 * 86400, d.offset⟩
    | .nan => none

/-- `dt.plus({months: n})`: calendar months, clamping the day of month. -/
def plusMonths (n : JSNum) : Option DT → Option DT
  | none => none
  | some d =>
    match n with
    | .int k =>
      let c := civilAt d
      let t := c.year * 12 + (c.month - 1) + k
      let y' := t.ediv 12
      let m' := t.emod 12 + 1
      let dd' := min c.day (daysInMonth y' m')
      let sod := secOfDay d
      some (mkLocal y' m' dd' (sod.ediv 3600) ((sod.emod 3600).ediv 60)
        (sod.emod 60) d.offset)
    | .nan => none

/-- `dt.plus({years: n})`: calendar years, clamping the day of month. -/
def plusYears (n : JSNum) : Option DT → Option DT
  | none => none
  | some d =>
    match n with
    | .int k =>
      let c := civilAt d
      let y' := c.year + k
      let dd' := min c.day (daysInMonth y' c.month)
      let sod := secOfDay d
      some (mkLocal y' c.month dd' (sod.ediv 3600) ((sod.emod 3600).ediv 60)
        (sod.emod 60) d.offset)
    | .nan => none

/-- `dt.startOf("month")`. -/
def startOfMonth : Option DT → Option DT :=
  Option.map fun d =>
    let c := civilAt d
    mkLocal c.year c.month 1 0 0 0 d.offset

/-- `dt.endOf("month")` (to second precision, which is all the comparisons
here can observe). -/
def endOfMonth : Option DT → Option DT :=
  Option.map fun d =>
    let c := civilAt d
    mkLocal c.year c.month (daysInMonth c.year c.month) 23 59 59 d.offset

/-- `dt.toString()`: the content of the emitted ISO string (`none` is the
string "Invalid DateTime"). -/
def dtToOutput : Option DT → Option ZDT
  | none => none
  | some d =>
    let c := civilAt d
    some ⟨c.year, c.month, c.day, (secOfDay d).ediv 3600,
      ((secOfDay d).emod 3600).ediv 60, (secOfDay d).emod 60, d.offset⟩

/-- `DateTime.fromObject({...}, {zone: "UTC"}).toJSDate()`: Luxon validates
the civil fields, yielding an Invalid Date when any is out of range or NaN. -/
def fromObjectUTC (y m dd h mi s : JSNum) : Option Int :=
  match y, m, dd, h, mi, s with
  | .int y, .int m, .int dd, .int h, .int mi, .int s =>
    if 1 ≤ m ∧ m ≤ 12 ∧ 1 ≤ dd ∧ dd ≤ daysInMonth y m ∧ 0 ≤ h ∧ h ≤ 23 ∧
        0 ≤ mi ∧ mi ≤ 59 ∧ 0 ≤ s ∧ s ≤ 59 then
      some (mkLocal y m dd h mi s 0).instant
    else none
  | _, _, _, _, _, _ => none

/-- `new Date(y, m-1, d, h, mi, s)`: the JS Date constructor interprets the
civil fields in the host's local zone `sysOff`, normalises out-of-range
fields by rolling them over, and maps two-digit years to 19xx. -/
def jsNewDateLocal (y m dd : JSNum) (h mi s : Int) (sysOff : Int) : Option Int :=
  match y, m, dd with
  | .int y, .int m, .int dd =>
    let y := if 0 ≤ y ∧ y ≤ 99 then y + 1900 else y
    let m0 := m - 1
    some (daysFromCivil (y + m0.ediv 12) (m0.emod 12 + 1) 1 * 86400
      + (dd - 1) * 86400 + h * 3600 + mi * 60 + s - sysOff * 60)
  | _, _, _ => none

/-! ### Key and value literals of the RRULE grammar -/

def freqKey : List Char := ['F','R','E','Q']
def intervalKey : List Char := ['I','N','T','E','R','V','A','L']
def untilKey : List Char := ['U','N','T','I','L']
def wkstKey : List Char := ['W','K','S','T']
def bydayKey : List Char := ['B','Y','D','A','Y']
def bysetposKey : List Char := ['B','Y','S','E','T','P','O','S']
def countKey : List Char := ['C','O','U','N','T']

def dailyVal : List Char := ['D','A','I','L','Y']
def weeklyVal : List Char := ['W','E','E','K','L','Y']
def monthlyVal : List Char := ['M','O','N','T','H','L','Y']
def yearlyVal : List Char := ['Y','E','A','R','L','Y']

def suVal : List Char := ['S','U']
def moVal : List Char := ['M','O']
def tuVal : List Char := ['T','U']
def weVal : List Char := ['W','E']
def thVal : List Char := ['T','H']
def frVal : List Char := ['F','R']
def saVal : List Char := ['S','A']

/-- The `BYDAY` token map: unrecognised tokens default to Monday. -/
def tokToWd (v : List Char) : Int :=
  if v = suVal then 0
  else if v = moVal then 1
  else if v = tuVal then 2
  else if v = weVal then 3
  else if v = thVal then 4
  else if v = frVal then 5
  else if v = saVal then 6
  else 1

/-- The `FREQ` switch: an unrecognised value leaves the field unchanged. -/
def freqOfVal (v : Option (List Char)) (prior : Frequency) : Frequency :=
  match v with
  | none => prior
  | some v =>
    if v = dailyVal then .DAILY
    else if v = weeklyVal then .WEEKLY
    else if v = monthlyVal then .MONTHLY
    else if v = yearlyVal then .YEARLY
    else prior

/-- The `WKST` switch: an unrecognised value leaves the field unchanged. -/
def wkstOfVal (v : Option (List Char)) (prior : Int) : Int :=
  match v with
  | none => prior
  | some v =>
    if v = suVal then 0
    else if v = moVal then 1
    else if v = tuVal then 2
    else if v = weVal then 3
    else if v = thVal then 4
    else if v = frVal then 5
    else if v = saVal then 6
    else prior

/-! ### Class-based implementation (`TimezoneRRule`) -/

/-- The UNTIL branch of the class parser: cut the six civil fields out of
the value, default each of hour/minute/second to 23/59/59 when it is absent
or zero (`parseInt(...) || d`), and build the Date with
`new Date(y, m-1, d, h, mi, s)`, i.e. in the host zone `sysOff`. -/
def classUntilOf (v : List Char) (sysOff : Int) : Option Int :=
  let uy := parseIntStr (jsSubstring 0 4 v)
  let um := parseIntStr (jsSubstring 4 6 v)
  let ud := parseIntStr (jsSubstring 6 8 v)
  let uh := jsOrInt (parseIntStr (jsSubstring 9 11 v)) 23
  let umi := jsOrInt (parseIntStr (jsSubstring 11 13 v)) 59
  let us := jsOrInt (parseIntStr (jsSubstring 13 15 v)) 59
  jsNewDateLocal uy um ud uh umi us sysOff

/-- The UNTIL branch of the hook parser: the same civil fields and
componentwise defaults, but built with
`DateTime.fromObject({...}, {zone: "UTC"})`. -/
def hookUntilOf (v : List Char) : Option Int :=
  let uy := parseIntStr (jsSubstring 0 4 v)
  let um := parseIntStr (jsSubstring 4 6 v)
  let ud := parseIntStr (jsSubstring 6 8 v)
  let uh := jsOrInt (parseIntStr (jsSubstring 9 11 v)) 23
  let umi := jsOrInt (parseIntStr (jsSubstring 11 13 v)) 59
  let us := jsOrInt (parseIntStr (jsSubstring 13 15 v)) 59
  fromObjectUTC uy um ud (.int uh) (.int umi) (.int us)

/-- One step of the `parts.forEach` switch of `TimezoneRRule.parseRRuleString`.
`none` models a raised `TypeError` (a key using `value` with no `=` present:
`undefined.substring` / `undefined.split`). -/
def stepC (sysOff : Int) (o : Options) (part : List Char) : Option Options :=
  let key := keyOf part
  let value := valOf part
  if key = freqKey then some { o with freq := freqOfVal value o.freq }
  else if key = intervalKey then some { o with interval := parseIntJS value }
  else if key = untilKey then
    match value with
    | none => none
    | some v => some { o with untl := some (classUntilOf v sysOff) }
  else if key = wkstKey then some { o with wkst := wkstOfVal value o.wkst }
  else if key = bydayKey then
    match value with
    | none => none
    | some v => some { o with byweekday := some ((splitOnCh ',' v).map tokToWd) }
  else if key = bysetposKey then
    match value with
    | none => none
    | some v => some { o with bysetpos := some ((splitOnCh ',' v).map parseIntStr) }
  else if key = countKey then some { o with count := some (parseIntJS value) }
  else some o

/-- `parts.forEach(...)`: a raised fault aborts the whole call. -/
def runPartsC (sysOff : Int) : Options → List (List Char) → Option Options
  | o, [] => some o
  | o, p :: ps =>
    match stepC sysOff o p with
    | none => none
    | some o' => runPartsC sysOff o' ps

/-- The options record both parsers initialise before the `forEach`:
DAILY, interval 1, `wkst` Monday, and the dtstart civil digits interpreted
as UTC. -/
def initOptions (dtstartStr : List Char) : Options :=
  { freq := .DAILY, interval := .int 1
    dtstart := fromObjectUTC
      (parseIntStr (jsSubstring 0 4 dtstartStr))
      (parseIntStr (jsSubstring 4 6 dtstartStr))
      (parseIntStr (jsSubstring 6 8 dtstartStr))
      (parseIntStr (jsSubstring 9 11 dtstartStr))
      (parseIntStr (jsSubstring 11 13 dtstartStr))
      (parseIntStr (jsSubstring 13 15 dtstartStr))
    untl := none, wkst := 1
    byweekday := none, bysetpos := none, count := none }

/-- `TimezoneRRule.parseRRuleString`.  The outer `Option` models a raised
fault; the inner one is the `null` return.  `sysOff` is the host zone. -/
def parseRRuleStringC (rRuleString : List Char) ( _startTime : Option HMS)
    (sysOff : Int) : Option (Option Options) :=
  if rRuleString = [] then some none
  else
    match matchDtstart rRuleString with
    | none => some none
    | some (_zid, dtstartStr) =>
      match matchRRule rRuleString with
      | none => some none
      | some rrulePart =>
        (runPartsC sysOff (initOptions dtstartStr) (splitOnCh ';' rrulePart)).map some

/-- `options.count || 1000`, as the loop bound (a non-positive bound runs
the loop zero times). -/
def maxCountOf (c : Option JSNum) : Nat :=
  (match c with
   | some (.int n) => if n = 0 then 1000 else n
   | _ => 1000).toNat

/-- The until test of the class generators:
`options.until && currentDate.toJSDate() > options.until`. -/
def untilHitC (u : Option (Option Int)) (cur : Option DT) : Bool :=
  match u with
  | some uu => jsGTdate (toJSDate cur) uu
  | none => false

/-- Convert to the target zone, pin the reference time of day, stringify. -/
def projectItem (tzOff : Int) (st : Option HMS) (cur : Option DT) : Option ZDT :=
  dtToOutput (setHMS st (setZone tzOff cur))

/-- The loop of `TimezoneRRule.generateDailyDates`. -/
def dailyLoopC (o : Options) (tzOff : Int) (st : Option HMS) :
    Nat → Option DT → List (Option ZDT)
  | 0, _ => []
  | n + 1, cur =>
    if untilHitC o.untl cur then []
    else projectItem tzOff st cur :: dailyLoopC o tzOff st n (plusDays o.interval cur)

def generateDailyDatesC (o : Options) (tzOff : Int) (st : Option HMS)
    (sysOff : Int) : List (Option ZDT) :=
  dailyLoopC o tzOff st (maxCountOf o.count) (fromJSDate o.dtstart sysOff)

/-- `currentDate.weekday === 7 ? 0 : currentDate.weekday`, compared against
the `byweekday` array (an Invalid DateTime matches nothing). -/
def weekdayMatches (byw : List Int) (cur : Option DT) : Bool :=
  match cur with
  | some d => byw.contains (if luxWeekday d = 7 then 0 else luxWeekday d)
  | none => false

/-- The day-by-day loop of `TimezoneRRule.generateWeeklyDates` when
`byweekday` is non-empty. -/
def weeklyBydayLoopC (o : Options) (tzOff : Int) (st : Option HMS)
    (byw : List Int) : Nat → Option DT → List (Option ZDT)
  | 0, _ => []
  | n + 1, cur =>
    if untilHitC o.untl cur then []
    else
      (if weekdayMatches byw cur then [projectItem tzOff st cur] else [])
        ++ weeklyBydayLoopC o tzOff st byw n (plusDays (.int 1) cur)

/-- The flat loop of `TimezoneRRule.generateWeeklyDates`. -/
def weeklyFlatLoopC (o : Options) (tzOff : Int) (st : Option HMS) :
    Nat → Option DT → List (Option ZDT)
  | 0, _ => []
  | n + 1, cur =>
    if untilHitC o.untl cur then []
    else projectItem tzOff st cur :: weeklyFlatLoopC o tzOff st n (plusWeeks o.interval cur)

def generateWeeklyDatesC (o : Options) (tzOff : Int) (st : Option HMS)
    (sysOff : Int) : List (Option ZDT) :=
  let start := fromJSDate o.dtstart sysOff
  match o.byweekday with
  | some byw =>
    if byw.length > 0 then weeklyBydayLoopC o tzOff st byw (maxCountOf o.count) start
    else weeklyFlatLoopC o tzOff st (maxCountOf o.count) start
  | none => weeklyFlatLoopC o tzOff st (maxCountOf o.count) start

/-- `checkDate.weekday % 7 === targetWeekday` (`targetWeekday` is
`byweekday[0]`, possibly undefined). -/
def wdTargetMatch (tw : Option Int) (wd : Int) : Bool :=
  match tw with
  | some t => decide (wd.emod 7 = t)
  | none => false

/-- The inner month scan of `generateMonthlyDates`: walk day by day from
`monthStart` while `checkDate <= monthEnd`, collecting the dates whose
weekday matches.  A month has at most 31 days, so fuel 32 never truncates. -/
def weekdayScan (tw : Option Int) (off mEnd : Int) : Nat → Int → List DT
  | 0, _ => []
  | f + 1, ci =>
    if ci ≤ mEnd then
      (if wdTargetMatch tw (((ci + off * 60).ediv 86400 + 3).emod 7 + 1)
       then [⟨ci, off⟩] else [])
        ++ weekdayScan tw off mEnd f (ci + 86400)
    else []

/-- The occurrence-selection of `generateMonthlyDates`: the 1-based index,
or the last element for -1, or nothing. -/
def pickOccurrence (occ : Option JSNum) (wos : List DT) : Option DT :=
  match occ with
  | some (.int k) =>
    if 0 < k ∧ k ≤ (wos.length : Int) then wos.get? (k - 1).toNat
    else if k = -1 ∧ wos.length > 0 then wos.getLast?
    else none
  | _ => none

/-- The loop of `TimezoneRRule.generateMonthlyDates`. -/
def monthlyLoopC (o : Options) (tzOff : Int) (st : Option HMS) :
    Nat → Option DT → List (Option ZDT)
  | 0, _ => []
  | n + 1, cur =>
    if untilHitC o.untl cur then []
    else
      (if o.byweekday.isSome ∧ o.bysetpos.isSome then
        let tw : Option Int := o.byweekday.bind List.head?
        let occ : Option JSNum := o.bysetpos.bind List.head?
        let wos : List DT :=
          match startOfMonth cur, endOfMonth cur with
          | some ms, some me => weekdayScan tw ms.offset me.instant 32 ms.instant
          | _, _ => []
        match pickOccurrence occ wos with
        | some t => [projectItem tzOff st (some t)]
        | none => []
      else [projectItem tzOff st cur])
        ++ monthlyLoopC o tzOff st n (plusMonths o.interval cur)

def generateMonthlyDatesC (o : Options) (tzOff : Int) (st : Option HMS)
    (sysOff : Int) : List (Option ZDT) :=
  monthlyLoopC o tzOff st (maxCountOf o.count) (fromJSDate o.dtstart sysOff)

/-- The loop of `TimezoneRRule.generateYearlyDates`. -/
def yearlyLoopC (o : Options) (tzOff : Int) (st : Option HMS) :
    Nat → Option DT → List (Option ZDT)
  | 0, _ => []
  | n + 1, cur =>
    if untilHitC o.untl cur then []
    else projectItem tzOff st cur :: yearlyLoopC o tzOff st n (plusYears o.interval cur)

def generateYearlyDatesC (o : Options) (tzOff : Int) (st : Option HMS)
    (sysOff : Int) : List (Option ZDT) :=
  yearlyLoopC o tzOff st (maxCountOf o.count) (fromJSDate o.dtstart sysOff)

/-- `TimezoneRRule.getDatesWithCustomTimezone`.  The outer `Option` models a
raised fault. -/
def getDatesWithCustomTimezoneC (rRuleString : List Char) (tzOff : Int)
    (st : Option HMS) (sysOff : Int) : Option (List (Option ZDT)) :=
  if rRuleString = [] then some []
  else
    match parseRRuleStringC rRuleString st sysOff with
    | none => none
    | some none => some []
    | some (some o) =>
      some (match o.freq with
        | .DAILY => generateDailyDatesC o tzOff st sysOff
        | .WEEKLY => generateWeeklyDatesC o tzOff st sysOff
        | .MONTHLY => generateMonthlyDatesC o tzOff st sysOff
        | .YEARLY => generateYearlyDatesC o tzOff st sysOff)

/-! ### Closure-based implementation (`useRruleDatesGenerator` hook) -/

/-- One step of the `parts.forEach` switch of the hook's `parseRRuleString`.
Identical to `stepC` except the UNTIL branch, which builds the Date with
`DateTime.fromObject({...}, {zone: "UTC"})`. -/
def stepH (o : Options) (part : List Char) : Option Options :=
  let key := keyOf part
  let value := valOf part
  if key = freqKey then some { o with freq := freqOfVal value o.freq }
  else if key = intervalKey then some { o with interval := parseIntJS value }
  else if key = untilKey then
    match value with
    | none => none
    | some v => some { o with untl := some (hookUntilOf v) }
  else if key = wkstKey then some { o with wkst := wkstOfVal value o.wkst }
  else if key = bydayKey then
    match value with
    | none => none
    | some v => some { o with byweekday := some ((splitOnCh ',' v).map tokToWd) }
  else if key = bysetposKey then
    match value with
    | none => none
    | some v => some { o with bysetpos := some ((splitOnCh ',' v).map parseIntStr) }
  else if key = countKey then some { o with count := some (parseIntJS value) }
  else some o

def runPartsH : Options → List (List Char) → Option Options
  | o, [] => some o
  | o, p :: ps =>
    match stepH o p with
    | none => none
    | some o' => runPartsH o' ps

/-- The hook's `parseRRuleString` closure. -/
def parseRRuleStringH (rRuleString : List Char) ( _startTime : Option HMS) :
    Option (Option Options) :=
  if rRuleString = [] then some none
  else
    match matchDtstart rRuleString with
    | none => some none
    | some (_zid, dtstartStr) =>
      match matchRRule rRuleString with
      | none => some none
      | some rrulePart =>
        (runPartsH (initOptions dtstartStr) (splitOnCh ';' rrulePart)).map some

/-- The until test of the hook generators:
`options.until && currentDate.toJSDate() >= options.until`. -/
def untilHitH (u : Option (Option Int)) (cur : Option DT) : Bool :=
  match u with
  | some uu => jsGEdate (toJSDate cur) uu
  | none => false

/-- The loop of the hook's `generateDailyDates`. -/
def dailyLoopH (o : Options) (tzOff : Int) (st : Option HMS) :
    Nat → Option DT → List (Option ZDT)
  | 0, _ => []
  | n + 1, cur =>
    if untilHitH o.untl cur then []
    else projectItem tzOff st cur :: dailyLoopH o tzOff st n (plusDays o.interval cur)

def generateDailyDatesH (o : Options) (tzOff : Int) (st : Option HMS)
    (sysOff : Int) : List (Option ZDT) :=
  dailyLoopH o tzOff st (maxCountOf o.count) (fromJSDate o.dtstart sysOff)

/-- The day-by-day loop of the hook's `generateWeeklyDates`. -/
def weeklyBydayLoopH (o : Options) (tzOff : Int) (st : Option HMS)
    (byw : List Int) : Nat → Option DT → List (Option ZDT)
  | 0, _ => []
  | n + 1, cur =>
    if untilHitH o.untl cur then []
    else
      (if weekdayMatches byw cur then [projectItem tzOff st cur] else [])
        ++ weeklyBydayLoopH o tzOff st byw n (plusDays (.int 1) cur)

/-- The flat loop of the hook's `generateWeeklyDates`. -/
def weeklyFlatLoopH (o : Options) (tzOff : Int) (st : Option HMS) :
    Nat → Option DT → List (Option ZDT)
  | 0, _ => []
  | n + 1, cur =>
    if untilHitH o.untl cur then []
    else projectItem tzOff st cur :: weeklyFlatLoopH o tzOff st n (plusWeeks o.interval cur)

def generateWeeklyDatesH (o : Options) (tzOff : Int) (st : Option HMS)
    (sysOff : Int) : List (Option ZDT) :=
  let start := fromJSDate o.dtstart sysOff
  match o.byweekday with
  | some byw =>
    if byw.length > 0 then weeklyBydayLoopH o tzOff st byw (maxCountOf o.count) start
    else weeklyFlatLoopH o tzOff st (maxCountOf o.count) start
  | none => weeklyFlatLoopH o tzOff st (maxCountOf o.count) start

/-- The loop of the hook's `generateMonthlyDates`. -/
def monthlyLoopH (o : Options) (tzOff : Int) (st : Option HMS) :
    Nat → Option DT → List (Option ZDT)
  | 0, _ => []
  | n + 1, cur =>
    if untilHitH o.untl cur then []
    else
      (if o.byweekday.isSome ∧ o.bysetpos.isSome then
        let tw : Option Int := o.byweekday.bind List.head?
        let occ : Option JSNum := o.bysetpos.bind List.head?
        let wos : List DT :=
          match startOfMonth cur, endOfMonth cur with
          | some ms, some me => weekdayScan tw ms.offset me.instant 32 ms.instant
          | _, _ => []
        match pickOccurrence occ wos with
        | some t => [projectItem tzOff st (some t)]
        | none => []
      else [projectItem tzOff st cur])
        ++ monthlyLoopH o tzOff st n (plusMonths o.interval cur)

def generateMonthlyDatesH (o : Options) (tzOff : Int) (st : Option HMS)
    (sysOff : Int) : List (Option ZDT) :=
  monthlyLoopH o tzOff st (maxCountOf o.count) (fromJSDate o.dtstart sysOff)

/-- The loop of the hook's `generateYearlyDates`. -/
def yearlyLoopH (o : Options) (tzOff : Int) (st : Option HMS) :
    Nat → Option DT → List (Option ZDT)
  | 0, _ => []
  | n + 1, cur =>
    if untilHitH o.untl cur then []
    else projectItem tzOff st cur :: yearlyLoopH o tzOff st n (plusYears o.interval cur)

def generateYearlyDatesH (o : Options) (tzOff : Int) (st : Option HMS)
    (sysOff : Int) : List (Option ZDT) :=
  yearlyLoopH o tzOff st (maxCountOf o.count) (fromJSDate o.dtstart sysOff)

/-- The hook's `getDatesWithCustomTimezone` closure. -/
def getDatesWithCustomTimezoneH (rRuleString : List Char) (tzOff : Int)
    (st : Option HMS) (sysOff : Int) : Option (List (Option ZDT)) :=
  if rRuleString = [] then some []
  else
    match parseRRuleStringH rRuleString st with
    | none => none
    | some none => some []
    | some (some o) =>
      some (match o.freq with
        | .DAILY => generateDailyDatesH o tzOff st sysOff
        | .WEEKLY => generateWeeklyDatesH o tzOff st sysOff
        | .MONTHLY => generateMonthlyDatesH o tzOff st sysOff
        | .YEARLY => generateYearlyDatesH o tzOff st sysOff)

/-! ### Concrete instances used as counterexamples and witnesses -/

/-- The reference local time 04:45:00 used throughout the repository's tests. -/
def stRef : Option HMS := some ⟨4, 45, 0⟩

/-- The daily rule of the repository's tests. -/
def ruleDaily : List Char :=
  "DTSTART;TZID=America/New_York:20240929T044500\nRRULE:FREQ=DAILY;INTERVAL=1;COUNT=3".toList

/-- A weekly rule with `BYDAY` whose start (2024-09-29) is a Sunday. -/
def ruleWeeklyByday : List Char :=
  "DTSTART;TZID=U:20240929T044500\nRRULE:FREQ=WEEKLY;BYDAY=MO;COUNT=3".toList

/-- A rule whose INTERVAL value does not parse as an integer. -/
def ruleIntervalNaN : List Char :=
  "DTSTART;TZID=U:20240929T044500\nRRULE:FREQ=DAILY;INTERVAL=abc;COUNT=2".toList

/-- A rule whose start declaration names the invalid month 00. -/
def ruleInvalidStart : List Char :=
  "DTSTART;TZID=U:20240001T044500\nRRULE:FREQ=DAILY;COUNT=1".toList

/-- A rule with an UNTIL bound at civil time 12:00:00. -/
def ruleUntil : List Char :=
  "DTSTART;TZID=U:20240929T044500\nRRULE:FREQ=DAILY;UNTIL=20241001T120000".toList

/-- A monthly first-Monday rule. -/
def ruleNthMonday : List Char :=
  "DTSTART;TZID=U:20240929T044500\nRRULE:FREQ=MONTHLY;BYDAY=MO;BYSETPOS=1;COUNT=3".toList

/-- The parse result of `ruleDaily`. -/
def optsDaily : Options :=
  { freq := .DAILY, interval := .int 1, dtstart := some 1727585100
    untl := none, wkst := 1, byweekday := none, bysetpos := none
    count := some (.int 3) }

/-- The parse result of `ruleWeeklyByday`. -/
def optsWeeklyByday : Options :=
  { freq := .WEEKLY, interval := .int 1, dtstart := some 1727585100
    untl := none, wkst := 1, byweekday := some [1], bysetpos := none
    count := some (.int 3) }

/-- The parse result of `ruleIntervalNaN`. -/
def optsIntervalNaN : Options :=
  { freq := .DAILY, interval := .nan, dtstart := some 1727585100
    untl := none, wkst := 1, byweekday := none, bysetpos := none
    count := some (.int 2) }

/-- The value of the last part carrying key `k`, if any (`some none` means
the key is present with no `=value`; later keys override earlier ones in the
`forEach` switch). -/
def lastValueOf (k : List Char) : List (List Char) → Option (Option (List Char))
  | [] => none
  | p :: ps =>
    match lastValueOf k ps with
    | some v => some v
    | none => if keyOf p = k then some (valOf p) else none

/-- The WEEKLY generator takes its flat branch: `byweekday` absent or empty. -/
def weeklyIsFlat (o : Options) : Prop :=
  o.byweekday = none ∨ o.byweekday = some []

/-- The zone-projection property claimed of each emitted string: it is a
civil timestamp whose hour/minute/second equal the reference local time's. -/
def itemHasTime (t : HMS) (x : Option ZDT) : Prop :=
  ∃ z, x = some z ∧ z.hour = t.hour ∧ z.minute = t.minute ∧ z.second = t.second

/-- A well-formed zoned rule text: start declaration with zone `z` and civil
literal `ds`, then a recurrence line with body `rest`. -/
def mkRuleText (z ds rest : List Char) : List Char :=
  dtstartLit ++ (z ++ ':' :: (ds ++ '\n' :: (rruleLit ++ rest)))

/-- The parse result of the C4 witness templates. -/
def optsC4 : Options :=
  { freq := .DAILY, interval := .int 1, dtstart := some 1727585100
    untl := none, wkst := 1, byweekday := none, bysetpos := none
    count := none }

/-- Modelled from the claim's words (not the code): the until instant built
by interpreting the civil fields as UTC, with hour/minute/second defaulting
to 23:59:59 when the time portion as a whole is absent or zero. -/
def claimUntilUTC (y mo d h mi s : Int) : Option Int :=
  if h = 0 ∧ mi = 0 ∧ s = 0 then
    fromObjectUTC (.int y) (.int mo) (.int d) (.int 23) (.int 59) (.int 59)
  else
    fromObjectUTC (.int y) (.int mo) (.int d) (.int h) (.int mi) (.int s)

/-- The class parse result of `ruleUntil` in a host zone at offset +60. -/
def optsUntil60 : Options :=
  { freq := .DAILY, interval := .int 1, dtstart := some 1727585100
    untl := some (some 1727783999), wkst := 1, byweekday := none
    bysetpos := none, count := none }

/-- The hook parse result of `ruleUntil` (host-zone independent). -/
def optsUntilH : Options :=
  { freq := .DAILY, interval := .int 1, dtstart := some 1727585100
    untl := some (some 1727787599), wkst := 1, byweekday := none
    bysetpos := none, count := none }

/-- Modelled from the claim's words: the weekday of a civil date in the
0=Sunday … 6=Saturday numbering. -/
def specWeekdayNum (y m d : Int) : Int := (daysFromCivil y m d + 4).emod 7

/-- Modelled from the claim's words: every date from the start to the end
of month (y, m) whose weekday equals `w`, in order, as midnight DateTimes
in the zone at offset `off`. -/
def specWeekdayDates (y m w off : Int) : List DT :=
  (List.range (daysInMonth y m).toNat).filterMap fun (i : Nat) =>
    if specWeekdayNum y m ((i : Int) + 1) = w
    then some (mkLocal y m ((i : Int) + 1) 0 0 0 off)
    else none

/-- Modelled from the claim's words: the element at 1-based index `k`, the
last element when `k = -1`, and nothing when the index is out of range. -/
def specSelect (k : Int) (l : List DT) : Option DT :=
  if 1 ≤ k ∧ k ≤ (l.length : Int) then l.get? (k - 1).toNat
  else if k = -1 ∧ l ≠ [] then l.getLast?
  else none

/-- The parse result of `ruleNthMonday`. -/
def optsNth : Options :=
  { freq := .MONTHLY, interval := .int 1, dtstart := some 1727585100
    untl := none, wkst := 1, byweekday := some [1], bysetpos := some [.int 1]
    count := some (.int 3) }

/-- The cursor DateTime the monthly generator starts from for `ruleNthMonday`
in a UTC host. -/
def dNth : DT := ⟨1727585100, 0⟩

/-- Whether the recurrence declaration of a rule text carries an UNTIL key. -/
def hasUntilKey (s : List Char) : Bool :=
  match matchRRule s with
  | none => false
  | some r => (splitOnCh ';' r).any (fun p => decide (keyOf p = untilKey))

/-- The parse result of `ruleInvalidStart` (month 00 makes `dtstart` an
Invalid Date). -/
def optsInvalidStart : Options :=
  { freq := .DAILY, interval := .int 1, dtstart := none
    untl := none, wkst := 1, byweekday := none, bysetpos := none
    count := some (.int 1) }

/-! ### Helper lemmas -/

theorem parseC_ne_nil {s : List Char} {st : Option HMS} {sys : Int} {o : Options}
    (h : parseRRuleStringC s st sys = some (some o)) : s ≠ [] := by
  intro hnil
  subst hnil
  simp [parseRRuleStringC] at h

/-- Deconstruction of a successful class parse: the two regex matches
succeeded and the fold ran to completion from the initial options. -/
theorem parseC_run {s : List Char} {st : Option HMS} {sys : Int} {o : Options}
    (hp : parseRRuleStringC s st sys = some (some o)) :
    ∃ zid ds r, matchDtstart s = some (zid, ds) ∧ matchRRule s = some r ∧
      runPartsC sys (initOptions ds) (splitOnCh ';' r) = some o := by
  have hs := parseC_ne_nil hp
  rw [parseRRuleStringC, if_neg hs] at hp
  rcases hd : matchDtstart s with _ | ⟨zid, ds⟩
  · rw [hd] at hp; simp at hp
  · rw [hd] at hp
    rcases hr : matchRRule s with _ | r
    · rw [hr] at hp; simp at hp
    · rw [hr] at hp
      dsimp only at hp
      rw [Option.map_eq_some'] at hp
      obtain ⟨o1, hrun, ho⟩ := hp
      exact ⟨zid, ds, r, rfl, rfl, (Option.some.inj ho) ▸ hrun⟩

theorem parseH_ne_nil {s : List Char} {st : Option HMS} {o : Options}
    (h : parseRRuleStringH s st = some (some o)) : s ≠ [] := by
  intro hnil
  subst hnil
  simp [parseRRuleStringH] at h

/-- Deconstruction of a successful hook parse. -/
theorem parseH_run {s : List Char} {st : Option HMS} {o : Options}
    (hp : parseRRuleStringH s st = some (some o)) :
    ∃ zid ds r, matchDtstart s = some (zid, ds) ∧ matchRRule s = some r ∧
      runPartsH (initOptions ds) (splitOnCh ';' r) = some o := by
  have hs := parseH_ne_nil hp
  rw [parseRRuleStringH, if_neg hs] at hp
  rcases hd : matchDtstart s with _ | ⟨zid, ds⟩
  · rw [hd] at hp; simp at hp
  · rw [hd] at hp
    rcases hr : matchRRule s with _ | r
    · rw [hr] at hp; simp at hp
    · rw [hr] at hp
      dsimp only at hp
      rw [Option.map_eq_some'] at hp
      obtain ⟨o1, hrun, ho⟩ := hp
      exact ⟨zid, ds, r, rfl, rfl, (Option.some.inj ho) ▸ hrun⟩

theorem dailyLoopC_length_le (o : Options) (tz : Int) (st : Option HMS) :
    ∀ n cur, (dailyLoopC o tz st n cur).length ≤ n := by
  intro n
  induction n with
  | zero => intro cur; simp [dailyLoopC]
  | succ k ih =>
    intro cur
    simp only [dailyLoopC]
    split
    · simp
    · simpa using ih (plusDays o.interval cur)

theorem weeklyFlatLoopC_length_le (o : Options) (tz : Int) (st : Option HMS) :
    ∀ n cur, (weeklyFlatLoopC o tz st n cur).length ≤ n := by
  intro n
  induction n with
  | zero => intro cur; simp [weeklyFlatLoopC]
  | succ k ih =>
    intro cur
    simp only [weeklyFlatLoopC]
    split
    · simp
    · simpa using ih (plusWeeks o.interval cur)

theorem weeklyBydayLoopC_length_le (o : Options) (tz : Int) (st : Option HMS)
    (byw : List Int) :
    ∀ n cur, (weeklyBydayLoopC o tz st byw n cur).length ≤ n := by
  intro n
  induction n with
  | zero => intro cur; simp [weeklyBydayLoopC]
  | succ k ih =>
    intro cur
    simp only [weeklyBydayLoopC]
    split
    · simp
    · have := ih (plusDays (.int 1) cur)
      split <;> simp <;> omega

theorem monthlyLoopC_length_le (o : Options) (tz : Int) (st : Option HMS) :
    ∀ n cur, (monthlyLoopC o tz st n cur).length ≤ n := by
  intro n
  induction n with
  | zero => intro cur; simp [monthlyLoopC]
  | succ k ih =>
    intro cur
    simp only [monthlyLoopC]
    split
    · simp
    · have := ih (plusMonths o.interval cur)
      split
      · split <;> simp <;> omega
      · simp; omega

theorem yearlyLoopC_length_le (o : Options) (tz : Int) (st : Option HMS) :
    ∀ n cur, (yearlyLoopC o tz st n cur).length ≤ n := by
  intro n
  induction n with
  | zero => intro cur; simp [yearlyLoopC]
  | succ k ih =>
    intro cur
    simp only [yearlyLoopC]
    split
    · simp
    · simpa using ih (plusYears o.interval cur)

/-- With no until bound, the daily loop emits one item per unit of fuel. -/
theorem dailyLoopC_length_eq (o : Options) (tz : Int) (st : Option HMS)
    (hu : o.untl = none) :
    ∀ n cur, (dailyLoopC o tz st n cur).length = n := by
  intro n
  induction n with
  | zero => intro cur; simp [dailyLoopC]
  | succ k ih =>
    intro cur
    simp only [dailyLoopC, untilHitC, hu]
    simpa using ih (plusDays o.interval cur)

theorem weeklyFlatLoopC_length_eq (o : Options) (tz : Int) (st : Option HMS)
    (hu : o.untl = none) :
    ∀ n cur, (weeklyFlatLoopC o tz st n cur).length = n := by
  intro n
  induction n with
  | zero => intro cur; simp [weeklyFlatLoopC]
  | succ k ih =>
    intro cur
    simp only [weeklyFlatLoopC, untilHitC, hu]
    simpa using ih (plusWeeks o.interval cur)

theorem yearlyLoopC_length_eq (o : Options) (tz : Int) (st : Option HMS)
    (hu : o.untl = none) :
    ∀ n cur, (yearlyLoopC o tz st n cur).length = n := by
  intro n
  induction n with
  | zero => intro cur; simp [yearlyLoopC]
  | succ k ih =>
    intro cur
    simp only [yearlyLoopC, untilHitC, hu]
    simpa using ih (plusYears o.interval cur)

/-- With no until bound and not in Nth-weekday mode, the monthly loop emits
one item per unit of fuel. -/
theorem monthlyLoopC_length_eq (o : Options) (tz : Int) (st : Option HMS)
    (hu : o.untl = none) (hm : ¬(o.byweekday.isSome ∧ o.bysetpos.isSome)) :
    ∀ n cur, (monthlyLoopC o tz st n cur).length = n := by
  intro n
  induction n with
  | zero => intro cur; simp [monthlyLoopC]
  | succ k ih =>
    intro cur
    simp only [monthlyLoopC, untilHitC, hu]
    rw [if_neg hm]
    simpa using ih (plusMonths o.interval cur)

theorem maxCountOf_pos {n : Int} (hn : 0 < n) :
    maxCountOf (some (.int n)) = n.toNat := by
  simp only [maxCountOf]
  rw [if_neg (by omega)]

theorem maxCountOf_none : maxCountOf none = 1000 := rfl

/-- Every generator is bounded by the loop fuel `options.count || 1000`. -/
theorem getDatesC_length_le {s : List Char} {tz : Int} {st : Option HMS}
    {sys : Int} {o : Options} {l : List (Option ZDT)}
    (hp : parseRRuleStringC s st sys = some (some o))
    (hg : getDatesWithCustomTimezoneC s tz st sys = some l) :
    l.length ≤ maxCountOf o.count := by
  have hs := parseC_ne_nil hp
  rw [getDatesWithCustomTimezoneC, if_neg hs, hp] at hg
  have hl : l = (match o.freq with
      | .DAILY => generateDailyDatesC o tz st sys
      | .WEEKLY => generateWeeklyDatesC o tz st sys
      | .MONTHLY => generateMonthlyDatesC o tz st sys
      | .YEARLY => generateYearlyDatesC o tz st sys) := by
    exact (Option.some.inj hg).symm
  subst hl
  cases o.freq
  · exact dailyLoopC_length_le o tz st _ _
  · simp only [generateWeeklyDatesC]
    rcases o.byweekday with _ | byw
    · exact weeklyFlatLoopC_length_le o tz st _ _
    · dsimp only
      split
      · exact weeklyBydayLoopC_length_le o tz st byw _ _
      · exact weeklyFlatLoopC_length_le o tz st _ _
  · exact monthlyLoopC_length_le o tz st _ _
  · exact yearlyLoopC_length_le o tz st _ _

/-- Claim C10: in every frequency mode, the sequence returned by
`getDatesWithCustomTimezone` has length at most `count` when the parsed
rule's count is a positive integer, and at most 1000 when `count` is absent,
regardless of `until` and of `byWeekday`/`bySetPosition`. -/
theorem claim_c10 (s : List Char) (tz : Int) (st : Option HMS) (sys : Int)
    (o : Options) (l : List (Option ZDT))
    (hp : parseRRuleStringC s st sys = some (some o))
    (hg : getDatesWithCustomTimezoneC s tz st sys = some l) :
    (∀ n : Int, o.count = some (.int n) → 0 < n → (l.length : Int) ≤ n) ∧
      (o.count = none → l.length ≤ 1000) := by
  have hle := getDatesC_length_le hp hg
  constructor
  · intro n hc hn
    rw [hc, maxCountOf_pos hn] at hle
    omega
  · intro hc
    rw [hc, maxCountOf_none] at hle
    exact hle

theorem claim_c10_witness :
    parseRRuleStringC ruleDaily stRef 0 = some (some optsDaily) ∧
      ((getDatesWithCustomTimezoneC ruleDaily 60 stRef 0).getD []).length ≤ (3 : Int) := by
  refine ⟨by decide, ?_⟩
  exact (claim_c10 ruleDaily 60 stRef 0 optsDaily _ (by decide) (by decide)).1 3 rfl
    (by decide)

/-- Claim C9: the result of `parseRRuleString` depends only on the rule
string (and, for the class form's UNTIL branch, the host zone), never on the
`startTime` argument, in both implementations. -/
theorem claim_c9 (s : List Char) (t1 t2 : Option HMS) (sys : Int) :
    parseRRuleStringC s t1 sys = parseRRuleStringC s t2 sys ∧
      parseRRuleStringH s t1 = parseRRuleStringH s t2 :=
  ⟨rfl, rfl⟩

/-- Claim C8: an empty input, a missing start declaration, or a missing
recurrence declaration makes `parseRRuleString` return null with no partial
result, and `getDatesWithCustomTimezone` return the empty sequence; neither
raises a fault. -/
theorem claim_c8 (s : List Char) (tz : Int) (st : Option HMS) (sys : Int)
    (h : s = [] ∨ matchDtstart s = none ∨ matchRRule s = none) :
    getDatesWithCustomTimezoneC s tz st sys = some [] ∧
      parseRRuleStringC s st sys = some none := by
  have hp : parseRRuleStringC s st sys = some none := by
    by_cases hs : s = []
    · rw [parseRRuleStringC, if_pos hs]
    · rcases h with h | h | h
      · exact absurd h hs
      · rw [parseRRuleStringC, if_neg hs, h]
      · rw [parseRRuleStringC, if_neg hs]
        rcases hd : matchDtstart s with _ | ⟨zid, ds⟩
        · rfl
        · rw [h]
  refine ⟨?_, hp⟩
  by_cases hs : s = []
  · rw [getDatesWithCustomTimezoneC, if_pos hs]
  · rw [getDatesWithCustomTimezoneC, if_neg hs, hp]

theorem stepC_dtstart {sys : Int} {o : Options} {p : List Char} {o' : Options}
    (h : stepC sys o p = some o') : o'.dtstart = o.dtstart := by
  simp only [stepC] at h
  split_ifs at h <;>
    first
      | (cases h; rfl)
      | (rcases hv : valOf p with _ | v <;> rw [hv] at h <;> cases h <;> rfl)

theorem stepC_interval_eq {sys : Int} {o : Options} {p : List Char} {o' : Options}
    (h : stepC sys o p = some o') (hk : keyOf p = intervalKey) :
    o'.interval = parseIntJS (valOf p) := by
  simp only [stepC] at h
  rw [if_neg (by rw [hk]; decide), if_pos hk] at h
  cases h
  rfl

theorem stepC_interval_ne {sys : Int} {o : Options} {p : List Char} {o' : Options}
    (h : stepC sys o p = some o') (hk : keyOf p ≠ intervalKey) :
    o'.interval = o.interval := by
  simp only [stepC] at h
  split_ifs at h with h1 h2 <;>
    first
      | exact absurd h2 hk
      | (cases h; rfl)
      | (rcases hv : valOf p with _ | v <;> rw [hv] at h <;> cases h <;> rfl)

theorem stepC_untl_ne {sys : Int} {o : Options} {p : List Char} {o' : Options}
    (h : stepC sys o p = some o') (hk : keyOf p ≠ untilKey) :
    o'.untl = o.untl := by
  simp only [stepC] at h
  split_ifs at h with h1 h2 h3 <;>
    first
      | exact absurd h3 hk
      | (cases h; rfl)
      | (rcases hv : valOf p with _ | v <;> rw [hv] at h <;> cases h <;> rfl)

/-- The fold keeps `dtstart` as initialised. -/
theorem runPartsC_dtstart {sys : Int} :
    ∀ {parts : List (List Char)} {o o' : Options},
      runPartsC sys o parts = some o' → o'.dtstart = o.dtstart := by
  intro parts
  induction parts with
  | nil =>
    intro o o' h
    cases h
    rfl
  | cons p ps ih =>
    intro o o' h
    rw [runPartsC] at h
    rcases hs : stepC sys o p with _ | o1
    · rw [hs] at h; cases h
    · rw [hs] at h
      rw [ih h, stepC_dtstart hs]

/-- The fold's final `interval`: the last INTERVAL part wins; with none,
the initial value survives. -/
theorem runPartsC_interval {sys : Int} :
    ∀ {parts : List (List Char)} {o o' : Options},
      runPartsC sys o parts = some o' →
      (match lastValueOf intervalKey parts with
       | none => o'.interval = o.interval
       | some v => o'.interval = parseIntJS v) := by
  intro parts
  induction parts with
  | nil =>
    intro o o' h
    cases h
    simp [lastValueOf]
  | cons p ps ih =>
    intro o o' h
    rw [runPartsC] at h
    rcases hs : stepC sys o p with _ | o1
    · rw [hs] at h; cases h
    · rw [hs] at h
      have htail := ih h
      rw [lastValueOf]
      rcases hlast : lastValueOf intervalKey ps with _ | v
      · rw [hlast] at htail
        by_cases hk : keyOf p = intervalKey
        · rw [if_pos hk]
          rw [htail, stepC_interval_eq hs hk]
        · rw [if_neg hk]
          rw [htail, stepC_interval_ne hs hk]
      · rw [hlast] at htail
        exact htail

theorem claim_c8_witness :
    (matchDtstart "invalid".toList = none ∨ True) ∧
      getDatesWithCustomTimezoneC "invalid".toList 0 stRef 0 = some [] ∧
      parseRRuleStringC "invalid".toList stRef 0 = some none :=
  ⟨Or.inl (by decide),
    claim_c8 "invalid".toList 0 stRef 0 (Or.inr (Or.inl (by decide)))⟩

/-- Claim C5, counterexample: with `INTERVAL=abc` the parsed interval is
NaN, not the claimed default 1 (and not a positive integer). -/
theorem claim_c5_counterexample :
    parseRRuleStringC ruleIntervalNaN stRef 0 = some (some optsIntervalNaN) ∧
      optsIntervalNaN.interval = JSNum.nan ∧ JSNum.nan ≠ JSNum.int 1 := by
  refine ⟨by decide, rfl, by decide⟩

/-- Claim C5, amended: the parsed `interval` equals the integer value of the
last INTERVAL key when its value parses as an integer, equals NaN when that
value is unparsable, and defaults to 1 only when INTERVAL is unspecified. -/
theorem claim_c5 (s : List Char) (st : Option HMS) (sys : Int) (o : Options)
    (r : List Char)
    (hp : parseRRuleStringC s st sys = some (some o))
    (hr : matchRRule s = some r) :
    (lastValueOf intervalKey (splitOnCh ';' r) = none → o.interval = .int 1) ∧
      (∀ v n, lastValueOf intervalKey (splitOnCh ';' r) = some v →
        parseIntJS v = .int n → o.interval = .int n) ∧
      (∀ v, lastValueOf intervalKey (splitOnCh ';' r) = some v →
        parseIntJS v = .nan → o.interval = .nan) := by
  obtain ⟨zid, ds, r', hd, hr', hrun⟩ := parseC_run hp
  rw [hr] at hr'
  have hrr : r' = r := (Option.some.inj hr').symm
  subst hrr
  have hint := runPartsC_interval hrun
  refine ⟨?_, ?_, ?_⟩
  · intro hnone
    rw [hnone] at hint
    exact hint
  · intro v n hv hpi
    rw [hv] at hint
    rw [hint, hpi]
  · intro v hv hpi
    rw [hv] at hint
    rw [hint, hpi]

theorem claim_c5_witness :
    parseRRuleStringC ruleDaily stRef 0 = some (some optsDaily) ∧
      matchRRule ruleDaily = some "FREQ=DAILY;INTERVAL=1;COUNT=3".toList ∧
      optsDaily.interval = JSNum.int 1 :=
  ⟨by decide, by decide,
    (claim_c5 ruleDaily stRef 0 optsDaily "FREQ=DAILY;INTERVAL=1;COUNT=3".toList
        (by decide) (by decide)).2.1 (some ['1']) 1 (by decide) (by decide)⟩

/-- Claim C1, counterexample: a WEEKLY rule with `BYDAY=MO` and `COUNT=3`
starting on a Sunday parses successfully with count 3 and no until, yet the
generator emits only 1 formatted string: the count bounds the days scanned,
not the emissions. -/
theorem claim_c1_counterexample :
    parseRRuleStringC ruleWeeklyByday stRef 0 = some (some optsWeeklyByday) ∧
      optsWeeklyByday.count = some (JSNum.int 3) ∧ optsWeeklyByday.untl = none ∧
      (getDatesWithCustomTimezoneC ruleWeeklyByday 0 stRef 0).map List.length
        = some 1 ∧ (1 : Nat) ≠ 3 := by
  exact ⟨by decide, rfl, rfl, by decide, by decide⟩

/-- Claim C1, amended: with `count = N > 0` and no until, the generator
returns exactly `N` items in DAILY, YEARLY, flat-WEEKLY and simple-MONTHLY
modes, and at most `N` items in WEEKLY-with-byWeekday and
MONTHLY-with-byWeekday-and-bySetPosition modes (there `N` bounds the scanned
candidates, not the emissions). -/
theorem claim_c1 (s : List Char) (tz : Int) (st : Option HMS) (sys : Int)
    (o : Options) (N : Int) (l : List (Option ZDT))
    (hp : parseRRuleStringC s st sys = some (some o))
    (hc : o.count = some (.int N)) (hN : 0 < N) (hu : o.untl = none)
    (hg : getDatesWithCustomTimezoneC s tz st sys = some l) :
    (l.length : Int) ≤ N ∧
      ((o.freq = .DAILY ∨ o.freq = .YEARLY ∨ (o.freq = .WEEKLY ∧ weeklyIsFlat o) ∨
          (o.freq = .MONTHLY ∧ ¬(o.byweekday.isSome ∧ o.bysetpos.isSome))) →
        (l.length : Int) = N) := by
  have hle := getDatesC_length_le hp hg
  rw [hc, maxCountOf_pos hN] at hle
  refine ⟨by omega, ?_⟩
  intro hmode
  rw [getDatesWithCustomTimezoneC, if_neg (parseC_ne_nil hp), hp] at hg
  have hl : l = (match o.freq with
      | .DAILY => generateDailyDatesC o tz st sys
      | .WEEKLY => generateWeeklyDatesC o tz st sys
      | .MONTHLY => generateMonthlyDatesC o tz st sys
      | .YEARLY => generateYearlyDatesC o tz st sys) :=
    (Option.some.inj hg).symm
  have hfuel : maxCountOf o.count = N.toNat := by rw [hc, maxCountOf_pos hN]
  rcases hf : o.freq with _ | _ | _ | _ <;> rw [hf] at hl hmode <;> subst hl
  · rw [generateDailyDatesC, dailyLoopC_length_eq o tz st hu, hfuel]
    omega
  · rcases hmode with h | h | ⟨_, h⟩ | ⟨h, _⟩ <;> try exact absurd h (by decide)
    rw [generateWeeklyDatesC]
    rcases h with h | h <;> rw [h]
    · rw [weeklyFlatLoopC_length_eq o tz st hu, hfuel]
      omega
    · simp only [List.length_nil, gt_iff_lt, lt_irrefl, if_false]
      rw [weeklyFlatLoopC_length_eq o tz st hu, hfuel]
      omega
  · rcases hmode with h | h | ⟨h, _⟩ | ⟨_, h⟩ <;> try exact absurd h (by decide)
    rw [generateMonthlyDatesC, monthlyLoopC_length_eq o tz st hu h, hfuel]
    omega
  · rw [generateYearlyDatesC, yearlyLoopC_length_eq o tz st hu, hfuel]
    omega

theorem claim_c1_witness :
    parseRRuleStringC ruleDaily stRef 0 = some (some optsDaily) ∧
      ((((getDatesWithCustomTimezoneC ruleDaily 60 stRef 0).getD []).length : Int)
        = 3) :=
  ⟨by decide,
    (claim_c1 ruleDaily 60 stRef 0 optsDaily 3 _ (by decide) rfl (by decide) rfl
        (by decide)).2 (Or.inl rfl)⟩

/-- `Int.emod` is the `%` of the Mod instance (stated for `omega`). -/
theorem emod_eq (a b : Int) : a.emod b = a % b := rfl

/-- `Int.ediv` is the `/` of the Div instance (stated for `omega`). -/
theorem ediv_eq (a b : Int) : a.ediv b = a / b := rfl

/-- Pinning a valid time of day and stringifying yields exactly that
hour/minute/second. -/
theorem setHMS_out (t : HMS) (ht : hmsOK t = true) (e : DT) :
    itemHasTime t (dtToOutput (setHMS (some t) (some e))) := by
  have hb : 0 ≤ t.hour ∧ t.hour ≤ 23 ∧ 0 ≤ t.minute ∧ t.minute ≤ 59 ∧
      0 ≤ t.second ∧ t.second ≤ 59 := by
    simp only [hmsOK, Bool.and_eq_true, decide_eq_true_eq] at ht
    omega
  obtain ⟨h1, h2, h3, h4, h5, h6⟩ := hb
  simp only [setHMS, if_pos ht, dtToOutput]
  refine ⟨_, rfl, ?_, ?_, ?_⟩ <;>
    simp only [secOfDay, localSecs, localDays, emod_eq, ediv_eq] <;> omega

/-- A projected item built from a valid DateTime and a valid reference time
carries exactly the reference hour/minute/second. -/
theorem projectItem_hms (t : HMS) (ht : hmsOK t = true) (tz : Int) (d : DT) :
    itemHasTime t (projectItem tz (some t) (some d)) := by
  have hz : setZone tz (some d) = some ⟨d.instant, tz⟩ := rfl
  rw [projectItem, hz]
  exact setHMS_out t ht ⟨d.instant, tz⟩

theorem dailyLoopC_hms (o : Options) (tz : Int) (t : HMS) (ht : hmsOK t = true)
    (k : Int) (hi : o.interval = .int k) :
    ∀ n d x, x ∈ dailyLoopC o tz (some t) n (some d) → itemHasTime t x := by
  intro n
  induction n with
  | zero => intro d x hx; simp [dailyLoopC] at hx
  | succ m ih =>
    intro d x hx
    rw [dailyLoopC] at hx
    split at hx
    · simp at hx
    · rcases List.mem_cons.mp hx with hh | htail
      · rw [hh]; exact projectItem_hms t ht tz d
      · rw [hi] at htail
        exact ih _ x htail

theorem weeklyFlatLoopC_hms (o : Options) (tz : Int) (t : HMS)
    (ht : hmsOK t = true) (k : Int) (hi : o.interval = .int k) :
    ∀ n d x, x ∈ weeklyFlatLoopC o tz (some t) n (some d) → itemHasTime t x := by
  intro n
  induction n with
  | zero => intro d x hx; simp [weeklyFlatLoopC] at hx
  | succ m ih =>
    intro d x hx
    rw [weeklyFlatLoopC] at hx
    split at hx
    · simp at hx
    · rcases List.mem_cons.mp hx with hh | htail
      · rw [hh]; exact projectItem_hms t ht tz d
      · rw [hi] at htail
        exact ih _ x htail

theorem weeklyBydayLoopC_hms (o : Options) (tz : Int) (t : HMS)
    (ht : hmsOK t = true) (byw : List Int) :
    ∀ n c x, x ∈ weeklyBydayLoopC o tz (some t) byw n c → itemHasTime t x := by
  intro n
  induction n with
  | zero => intro c x hx; simp [weeklyBydayLoopC] at hx
  | succ m ih =>
    intro c x hx
    rw [weeklyBydayLoopC] at hx
    split at hx
    · simp at hx
    · rcases List.mem_append.mp hx with hh | htail
      · rcases hw : weekdayMatches byw c with _ | _
        · rw [hw] at hh; simp at hh
        · rw [hw] at hh
          simp at hh
          rcases c with _ | d
          · simp [weekdayMatches] at hw
          · rw [hh]; exact projectItem_hms t ht tz d
      · exact ih _ x htail

theorem yearlyLoopC_hms (o : Options) (tz : Int) (t : HMS) (ht : hmsOK t = true)
    (k : Int) (hi : o.interval = .int k) :
    ∀ n d x, x ∈ yearlyLoopC o tz (some t) n (some d) → itemHasTime t x := by
  intro n
  induction n with
  | zero => intro d x hx; simp [yearlyLoopC] at hx
  | succ m ih =>
    intro d x hx
    rw [yearlyLoopC] at hx
    split at hx
    · simp at hx
    · rcases List.mem_cons.mp hx with hh | htail
      · rw [hh]; exact projectItem_hms t ht tz d
      · rw [hi] at htail
        exact ih _ x htail

theorem monthlyLoopC_hms (o : Options) (tz : Int) (t : HMS) (ht : hmsOK t = true)
    (k : Int) (hi : o.interval = .int k) :
    ∀ n d x, x ∈ monthlyLoopC o tz (some t) n (some d) → itemHasTime t x := by
  intro n
  induction n with
  | zero => intro d x hx; simp [monthlyLoopC] at hx
  | succ m ih =>
    intro d x hx
    rw [monthlyLoopC] at hx
    split at hx
    · simp at hx
    · rcases List.mem_append.mp hx with hh | htail
      · by_cases hP : o.byweekday.isSome ∧ o.bysetpos.isSome
        · rw [if_pos hP] at hh
          dsimp only at hh
          rcases hpk : pickOccurrence (o.bysetpos.bind List.head?)
              (match startOfMonth (some d), endOfMonth (some d) with
               | some ms, some me => weekdayScan (o.byweekday.bind List.head?)
                   ms.offset me.instant 32 ms.instant
               | _, _ => []) with _ | tdt
          · rw [hpk] at hh; simp at hh
          · rw [hpk] at hh
            simp only [List.mem_singleton] at hh
            rw [hh]; exact projectItem_hms t ht tz tdt
        · rw [if_neg hP] at hh
          simp only [List.mem_singleton] at hh
          rw [hh]; exact projectItem_hms t ht tz d
      · rw [hi] at htail
        exact ih _ x htail

/-- Claim C7, amended: for every rule that parses successfully with a valid
start date and an integer interval, every target zone, and every valid
reference local time, every emitted string is a civil timestamp whose
hour/minute/second equal the reference time's, independent of the target
zone's offset. -/
theorem claim_c7 (s : List Char) (tz sys : Int) (o : Options) (t : HMS)
    (l : List (Option ZDT)) (d0 k : Int)
    (hp : parseRRuleStringC s (some t) sys = some (some o))
    (hms : hmsOK t = true)
    (hd0 : o.dtstart = some d0) (hi : o.interval = .int k)
    (hg : getDatesWithCustomTimezoneC s tz (some t) sys = some l) :
    ∀ x ∈ l, itemHasTime t x := by
  intro x hx
  rw [getDatesWithCustomTimezoneC, if_neg (parseC_ne_nil hp), hp] at hg
  have hl : l = (match o.freq with
      | .DAILY => generateDailyDatesC o tz (some t) sys
      | .WEEKLY => generateWeeklyDatesC o tz (some t) sys
      | .MONTHLY => generateMonthlyDatesC o tz (some t) sys
      | .YEARLY => generateYearlyDatesC o tz (some t) sys) :=
    (Option.some.inj hg).symm
  subst hl
  have hstart : fromJSDate o.dtstart sys = some ⟨d0, sys⟩ := by
    rw [hd0]; rfl
  rcases hf : o.freq with _ | _ | _ | _ <;> rw [hf] at hx <;> dsimp only at hx
  · rw [generateDailyDatesC, hstart] at hx
    exact dailyLoopC_hms o tz t hms k hi _ _ x hx
  · rw [generateWeeklyDatesC, hstart] at hx
    rcases hby : o.byweekday with _ | byw
    · rw [hby] at hx
      dsimp only at hx
      exact weeklyFlatLoopC_hms o tz t hms k hi _ _ x hx
    · rw [hby] at hx
      dsimp only at hx
      by_cases hb : byw.length > 0
      · rw [if_pos hb] at hx
        exact weeklyBydayLoopC_hms o tz t hms byw _ _ x hx
      · rw [if_neg hb] at hx
        exact weeklyFlatLoopC_hms o tz t hms k hi _ _ x hx
  · rw [generateMonthlyDatesC, hstart] at hx
    exact monthlyLoopC_hms o tz t hms k hi _ _ x hx
  · rw [generateYearlyDatesC, hstart] at hx
    exact yearlyLoopC_hms o tz t hms k hi _ _ x hx

/-- Claim C7, counterexample: the rule with start month 00 parses
successfully, yet the single emitted string is "Invalid DateTime", which
carries no civil fields at all, let alone the reference time's. -/
theorem claim_c7_counterexample :
    parseRRuleStringC ruleInvalidStart stRef 0 = some (some optsInvalidStart) ∧
      getDatesWithCustomTimezoneC ruleInvalidStart 0 stRef 0 = some [none] ∧
      ¬ itemHasTime ⟨4, 45, 0⟩ (none : Option ZDT) := by
  refine ⟨by decide, by decide, ?_⟩
  rintro ⟨z, hz, -⟩
  cases hz

theorem claim_c7_witness :
    parseRRuleStringC ruleDaily (some ⟨4, 45, 0⟩) 0 = some (some optsDaily) ∧
      itemHasTime ⟨4, 45, 0⟩
        (some ⟨2024, 9, 29, 4, 45, 0, 60⟩) := by
  refine ⟨by decide, ?_⟩
  exact claim_c7 ruleDaily 60 0 optsDaily ⟨4, 45, 0⟩
    ((getDatesWithCustomTimezoneC ruleDaily 60 (some ⟨4, 45, 0⟩) 0).getD [])
    1727585100 1 (by decide) (by decide) rfl rfl (by decide)
    (some ⟨2024, 9, 29, 4, 45, 0, 60⟩) (by decide)

/-- On every part other than UNTIL the two `forEach` switches agree. -/
theorem step_agree (sys : Int) (o : Options) (p : List Char)
    (hk : keyOf p ≠ untilKey) : stepH o p = stepC sys o p := by
  simp only [stepC, stepH]
  split_ifs <;> rfl

theorem runParts_agree (sys : Int) :
    ∀ {parts : List (List Char)} {o : Options},
      (∀ p ∈ parts, keyOf p ≠ untilKey) →
      runPartsH o parts = runPartsC sys o parts := by
  intro parts
  induction parts with
  | nil => intro o _; rfl
  | cons p ps ih =>
    intro o hk
    rw [runPartsH, runPartsC, step_agree sys o p (hk p (List.mem_cons_self p ps))]
    rcases stepC sys o p with _ | o1
    · rfl
    · exact ih fun q hq => hk q (List.mem_cons_of_mem p hq)

/-- Without an UNTIL part the fold leaves `untl` as initialised. -/
theorem runPartsC_untl_none {sys : Int} :
    ∀ {parts : List (List Char)} {o o' : Options},
      (∀ p ∈ parts, keyOf p ≠ untilKey) →
      runPartsC sys o parts = some o' → o'.untl = o.untl := by
  intro parts
  induction parts with
  | nil =>
    intro o o' _ h
    cases h
    rfl
  | cons p ps ih =>
    intro o o' hk h
    rw [runPartsC] at h
    rcases hs : stepC sys o p with _ | o1
    · rw [hs] at h; cases h
    · rw [hs] at h
      rw [ih (fun q hq => hk q (List.mem_cons_of_mem p hq)) h,
        stepC_untl_ne hs (hk p (List.mem_cons_self p ps))]

theorem hasUntilKey_parts {s : List Char} {r : List Char}
    (h : hasUntilKey s = false) (hr : matchRRule s = some r) :
    ∀ p ∈ splitOnCh ';' r, keyOf p ≠ untilKey := by
  rw [hasUntilKey, hr] at h
  simpa using h

/-- Without an UNTIL key the two parsers return identical results. -/
theorem parse_agree (s : List Char) (st : Option HMS) (sys : Int)
    (h : hasUntilKey s = false) :
    parseRRuleStringH s st = parseRRuleStringC s st sys := by
  rw [parseRRuleStringH, parseRRuleStringC]
  by_cases hs : s = []
  · rw [if_pos hs, if_pos hs]
  · rw [if_neg hs, if_neg hs]
    rcases hd : matchDtstart s with _ | ⟨zid, ds⟩
    · rfl
    · rcases hr : matchRRule s with _ | r
      · rfl
      · dsimp only
        rw [runParts_agree sys (hasUntilKey_parts h hr)]

/-- Without an UNTIL key the class parse result carries `untl = none`. -/
theorem parse_untl_none {s : List Char} {st : Option HMS} {sys : Int}
    {o : Options} (h : hasUntilKey s = false)
    (hp : parseRRuleStringC s st sys = some (some o)) : o.untl = none := by
  obtain ⟨zid, ds, r, hd, hr, hrun⟩ := parseC_run hp
  exact runPartsC_untl_none (hasUntilKey_parts h hr) hrun

theorem dailyLoop_agree (o : Options) (tz : Int) (st : Option HMS)
    (hu : o.untl = none) :
    ∀ n cur, dailyLoopH o tz st n cur = dailyLoopC o tz st n cur := by
  intro n
  induction n with
  | zero => intro cur; rfl
  | succ m ih =>
    intro cur
    rw [dailyLoopH, dailyLoopC]
    simp only [untilHitC, untilHitH, hu]
    rw [ih]

theorem weeklyFlatLoop_agree (o : Options) (tz : Int) (st : Option HMS)
    (hu : o.untl = none) :
    ∀ n cur, weeklyFlatLoopH o tz st n cur = weeklyFlatLoopC o tz st n cur := by
  intro n
  induction n with
  | zero => intro cur; rfl
  | succ m ih =>
    intro cur
    rw [weeklyFlatLoopH, weeklyFlatLoopC]
    simp only [untilHitC, untilHitH, hu]
    rw [ih]

theorem weeklyBydayLoop_agree (o : Options) (tz : Int) (st : Option HMS)
    (byw : List Int) (hu : o.untl = none) :
    ∀ n cur, weeklyBydayLoopH o tz st byw n cur
      = weeklyBydayLoopC o tz st byw n cur := by
  intro n
  induction n with
  | zero => intro cur; rfl
  | succ m ih =>
    intro cur
    rw [weeklyBydayLoopH, weeklyBydayLoopC]
    simp only [untilHitC, untilHitH, hu]
    rw [ih]

theorem monthlyLoop_agree (o : Options) (tz : Int) (st : Option HMS)
    (hu : o.untl = none) :
    ∀ n cur, monthlyLoopH o tz st n cur = monthlyLoopC o tz st n cur := by
  intro n
  induction n with
  | zero => intro cur; rfl
  | succ m ih =>
    intro cur
    rw [monthlyLoopH, monthlyLoopC]
    simp only [untilHitC, untilHitH, hu]
    rw [ih]

theorem yearlyLoop_agree (o : Options) (tz : Int) (st : Option HMS)
    (hu : o.untl = none) :
    ∀ n cur, yearlyLoopH o tz st n cur = yearlyLoopC o tz st n cur := by
  intro n
  induction n with
  | zero => intro cur; rfl
  | succ m ih =>
    intro cur
    rw [yearlyLoopH, yearlyLoopC]
    simp only [untilHitC, untilHitH, hu]
    rw [ih]

/-- Claim C3: for every rule text whose RRULE line contains no UNTIL key,
the class-based generator and the closure-based hook generator produce
identical output sequences for the same arguments (their divergence is
confined to the until-boundary handling). -/
theorem claim_c3 (s : List Char) (tz : Int) (st : Option HMS) (sys : Int)
    (h : hasUntilKey s = false) :
    getDatesWithCustomTimezoneC s tz st sys
      = getDatesWithCustomTimezoneH s tz st sys := by
  rw [getDatesWithCustomTimezoneC, getDatesWithCustomTimezoneH]
  by_cases hs : s = []
  · rw [if_pos hs, if_pos hs]
  · rw [if_neg hs, if_neg hs, parse_agree s st sys h]
    rcases hp : parseRRuleStringC s st sys with _ | ho
    · rfl
    rcases ho with _ | o
    · rfl
    have hu : o.untl = none := parse_untl_none h hp
    have hd : generateDailyDatesH o tz st sys = generateDailyDatesC o tz st sys := by
      rw [generateDailyDatesH, generateDailyDatesC, dailyLoop_agree o tz st hu]
    have hw : generateWeeklyDatesH o tz st sys = generateWeeklyDatesC o tz st sys := by
      rw [generateWeeklyDatesH, generateWeeklyDatesC]
      rcases o.byweekday with _ | byw
      · dsimp only
        rw [weeklyFlatLoop_agree o tz st hu]
      · dsimp only
        rw [weeklyFlatLoop_agree o tz st hu, weeklyBydayLoop_agree o tz st byw hu]
    have hm : generateMonthlyDatesH o tz st sys = generateMonthlyDatesC o tz st sys := by
      rw [generateMonthlyDatesH, generateMonthlyDatesC, monthlyLoop_agree o tz st hu]
    have hy : generateYearlyDatesH o tz st sys = generateYearlyDatesC o tz st sys := by
      rw [generateYearlyDatesH, generateYearlyDatesC, yearlyLoop_agree o tz st hu]
    cases o.freq <;> dsimp only <;> rw [hd, hw, hm, hy]

theorem claim_c3_witness :
    hasUntilKey ruleDaily = false ∧
      getDatesWithCustomTimezoneC ruleDaily 60 stRef 0
        = getDatesWithCustomTimezoneH ruleDaily 60 stRef 0 :=
  ⟨by decide, claim_c3 ruleDaily 60 stRef 0 (by decide)⟩

/-! ### String-template lemmas for the start-declaration regex -/

theorem digit_ne {c d : Char} (h : c.isDigit = true) (hd : d.isDigit = false) :
    c ≠ d := by
  intro he
  subst he
  rw [h] at hd
  cases hd

theorem dropLit_append : ∀ (l r : List Char), dropLit l (l ++ r) = some r := by
  intro l
  induction l with
  | nil => intro r; rfl
  | cons c cs ih => intro r; simp [dropLit, ih]

theorem takeWhile_ne_colon {z : List Char} (hzc : ':' ∉ z) (r : List Char) :
    (z ++ ':' :: r).takeWhile (· ≠ ':') = z := by
  induction z with
  | nil => simp
  | cons c cs ih =>
    have hc : c ≠ ':' := fun he => hzc (he ▸ List.mem_cons_self c cs)
    simp only [List.cons_append, List.takeWhile_cons]
    rw [if_pos (by simpa using hc)]
    rw [ih fun hm => hzc (List.mem_cons_of_mem c hm)]

theorem dropWhile_ne_colon {z : List Char} (hzc : ':' ∉ z) (r : List Char) :
    (z ++ ':' :: r).dropWhile (· ≠ ':') = ':' :: r := by
  induction z with
  | nil => simp
  | cons c cs ih =>
    have hc : c ≠ ':' := fun he => hzc (he ▸ List.mem_cons_self c cs)
    simp only [List.cons_append, List.dropWhile_cons]
    rw [if_pos (by simpa using hc)]
    exact ih fun hm => hzc (List.mem_cons_of_mem c hm)

theorem grabDigits_exact : ∀ (cs r : List Char), (∀ c ∈ cs, c.isDigit) →
    grabDigits cs.length (cs ++ r) = some (cs, r) := by
  intro cs
  induction cs with
  | nil => intro r _; rfl
  | cons c cs ih =>
    intro r h
    simp only [List.length_cons, List.cons_append, grabDigits,
      if_pos (h c (List.mem_cons_self c cs)), List.append_eq,
      ih r fun q hq => h q (List.mem_cons_of_mem c hq)]
    rfl

theorem scanFor_head {α : Type} (f : List Char → Option α) (s : List Char) (r : α)
    (h : f s = some r) : scanFor f s = some r := by
  cases s with
  | nil => rw [scanFor]; exact h
  | cons c cs => rw [scanFor, h]

theorem dtstartAt_tmpl (z a b rest : List Char) (hz : z ≠ []) (hzc : ':' ∉ z)
    (ha : ∀ c ∈ a, c.isDigit) (hal : a.length = 8)
    (hb : ∀ c ∈ b, c.isDigit) (hbl : b.length = 6) :
    dtstartAt (mkRuleText z (a ++ 'T' :: b) rest) = some (z, a ++ 'T' :: b) := by
  have hassoc : (a ++ 'T' :: b) ++ '\n' :: (rruleLit ++ rest)
      = a ++ 'T' :: (b ++ '\n' :: (rruleLit ++ rest)) := by
    simp [List.append_assoc]
  rw [mkRuleText, dtstartAt, dropLit_append]
  try dsimp only
  rw [takeWhile_ne_colon hzc, dropWhile_ne_colon hzc, if_neg hz]
  try dsimp only
  rw [if_pos rfl, hassoc]
  have h8 : grabDigits 8 (a ++ 'T' :: (b ++ '\n' :: (rruleLit ++ rest)))
      = some (a, 'T' :: (b ++ '\n' :: (rruleLit ++ rest))) := by
    rw [← hal]
    exact grabDigits_exact a _ ha
  rw [h8]
  try dsimp only
  rw [if_pos rfl]
  have h6 : grabDigits 6 (b ++ '\n' :: (rruleLit ++ rest))
      = some (b, '\n' :: (rruleLit ++ rest)) := by
    rw [← hbl]
    exact grabDigits_exact b _ hb
  rw [h6]

theorem matchDtstart_tmpl (z a b rest : List Char) (hz : z ≠ []) (hzc : ':' ∉ z)
    (ha : ∀ c ∈ a, c.isDigit) (hal : a.length = 8)
    (hb : ∀ c ∈ b, c.isDigit) (hbl : b.length = 6) :
    matchDtstart (mkRuleText z (a ++ 'T' :: b) rest) = some (z, a ++ 'T' :: b) := by
  rw [matchDtstart]
  exact scanFor_head _ _ _ (dtstartAt_tmpl z a b rest hz hzc ha hal hb hbl)

theorem mkRuleText_ne_nil (z ds rest : List Char) : mkRuleText z ds rest ≠ [] := by
  simp [mkRuleText, dtstartLit]

/-- On a well-formed template, the class parser builds `dtstart` from the
civil digit fields alone, interpreting them in UTC. -/
theorem parseC_tmpl_dtstart (z a b rest : List Char) (st : Option HMS) (sys : Int)
    (o : Options) (hz : z ≠ []) (hzc : ':' ∉ z)
    (ha : ∀ c ∈ a, c.isDigit) (hal : a.length = 8)
    (hb : ∀ c ∈ b, c.isDigit) (hbl : b.length = 6)
    (hp : parseRRuleStringC (mkRuleText z (a ++ 'T' :: b) rest) st sys
      = some (some o)) :
    o.dtstart = fromObjectUTC
      (parseIntStr (jsSubstring 0 4 (a ++ 'T' :: b)))
      (parseIntStr (jsSubstring 4 6 (a ++ 'T' :: b)))
      (parseIntStr (jsSubstring 6 8 (a ++ 'T' :: b)))
      (parseIntStr (jsSubstring 9 11 (a ++ 'T' :: b)))
      (parseIntStr (jsSubstring 11 13 (a ++ 'T' :: b)))
      (parseIntStr (jsSubstring 13 15 (a ++ 'T' :: b))) := by
  obtain ⟨zid, ds, r, hd, hr, hrun⟩ := parseC_run hp
  rw [matchDtstart_tmpl z a b rest hz hzc ha hal hb hbl] at hd
  have hds : ds = a ++ 'T' :: b :=
    (congrArg Prod.snd (Option.some.inj hd)).symm
  subst hds
  exact runPartsC_dtstart hrun

theorem takeWhile_isDigit_all : ∀ {cs : List Char}, (∀ c ∈ cs, c.isDigit) →
    cs.takeWhile Char.isDigit = cs := by
  intro cs
  induction cs with
  | nil => intro _; rfl
  | cons c cs ih =>
    intro h
    rw [List.takeWhile_cons, if_pos (h c (List.mem_cons_self c cs)),
      ih fun q hq => h q (List.mem_cons_of_mem c hq)]

/-- `parseInt` on a non-empty all-digit string yields its decimal value. -/
theorem parseIntStr_digits : ∀ {cs : List Char}, (∀ c ∈ cs, c.isDigit) →
    cs ≠ [] → parseIntStr cs = .int (digitsVal cs) := by
  intro cs h hne
  rcases cs with _ | ⟨c, r⟩
  · exact absurd rfl hne
  · have hc := h c (List.mem_cons_self c r)
    have hsp : (c :: r).dropWhile (· = ' ') = c :: r := by
      rw [List.dropWhile_cons, if_neg (by simpa using digit_ne hc (by decide))]
    rw [parseIntStr, hsp]
    try dsimp only
    rw [if_neg (digit_ne hc (by decide)), if_neg (digit_ne hc (by decide))]
    rw [parseIntCore]
    rw [takeWhile_isDigit_all h]
    try dsimp only
    rw [if_neg (by simp)]

theorem ne_nil_of_len (n : Nat) {l : List Char} (h : l.length = n) (hn : n ≠ 0) :
    l ≠ [] := by
  intro he
  subst he
  simp at h
  omega

/-- The six 2- or 4-digit civil fields cut out of an 8+6-digit literal. -/
theorem dateFieldVals (a b : List Char)
    (ha : ∀ c ∈ a, c.isDigit) (hal : a.length = 8)
    (hb : ∀ c ∈ b, c.isDigit) (hbl : b.length = 6) :
    parseIntStr (jsSubstring 0 4 (a ++ 'T' :: b)) = .int (digitsVal (a.take 4)) ∧
    parseIntStr (jsSubstring 4 6 (a ++ 'T' :: b))
      = .int (digitsVal ((a.drop 4).take 2)) ∧
    parseIntStr (jsSubstring 6 8 (a ++ 'T' :: b)) = .int (digitsVal (a.drop 6)) ∧
    parseIntStr (jsSubstring 9 11 (a ++ 'T' :: b)) = .int (digitsVal (b.take 2)) ∧
    parseIntStr (jsSubstring 11 13 (a ++ 'T' :: b))
      = .int (digitsVal ((b.drop 2).take 2)) ∧
    parseIntStr (jsSubstring 13 15 (a ++ 'T' :: b)) = .int (digitsVal (b.drop 4)) := by
  have hdig : ∀ n, ∀ c ∈ a.drop n, c.isDigit :=
    fun n c hc => ha c (List.drop_subset n a hc)
  have hdigb : ∀ n, ∀ c ∈ b.drop n, c.isDigit :=
    fun n c hc => hb c (List.drop_subset n b hc)
  refine ⟨?_, ?_, ?_, ?_, ?_, ?_⟩
  · have h1 : jsSubstring 0 4 (a ++ 'T' :: b) = a.take 4 := by
      rw [jsSubstring, List.drop_zero]
      exact List.take_append_of_le_length (by omega)
    rw [h1]
    exact parseIntStr_digits (fun c hc => ha c (List.take_subset 4 a hc))
      (ne_nil_of_len 4 (by simp [List.length_take, hal]) (by omega))
  · have h1 : jsSubstring 4 6 (a ++ 'T' :: b) = (a.drop 4).take 2 := by
      rw [jsSubstring, List.drop_append_of_le_length (by omega)]
      exact List.take_append_of_le_length (by simp [hal])
    rw [h1]
    exact parseIntStr_digits (fun c hc => hdig 4 c (List.take_subset 2 _ hc))
      (ne_nil_of_len 2 (by simp [List.length_take, hal]) (by omega))
  · have h1 : jsSubstring 6 8 (a ++ 'T' :: b) = a.drop 6 := by
      rw [jsSubstring, List.drop_append_of_le_length (by omega)]
      have hl : (a.drop 6).length = 2 := by simp [hal]
      rw [List.take_append_of_le_length (by omega)]
      exact List.take_of_length_le (by omega)
    rw [h1]
    exact parseIntStr_digits (hdig 6)
      (ne_nil_of_len 2 (by simp [hal]) (by omega))
  · have h1 : jsSubstring 9 11 (a ++ 'T' :: b) = b.take 2 := by
      rw [jsSubstring]
      have hdr : (a ++ 'T' :: b).drop 9 = b := by
        rw [show (9 : Nat) = a.length + 1 by rw [hal], List.drop_append]
        simp
      rw [hdr]
    rw [h1]
    exact parseIntStr_digits (fun c hc => hb c (List.take_subset 2 b hc))
      (ne_nil_of_len 2 (by simp [List.length_take, hbl]) (by omega))
  · have h1 : jsSubstring 11 13 (a ++ 'T' :: b) = (b.drop 2).take 2 := by
      rw [jsSubstring]
      have hdr : (a ++ 'T' :: b).drop 11 = b.drop 2 := by
        rw [show (11 : Nat) = a.length + 3 by rw [hal], List.drop_append]
        rw [List.drop_succ_cons]
      rw [hdr]
    rw [h1]
    exact parseIntStr_digits (fun c hc => hdigb 2 c (List.take_subset 2 _ hc))
      (ne_nil_of_len 2 (by simp [List.length_take, hbl]) (by omega))
  · have h1 : jsSubstring 13 15 (a ++ 'T' :: b) = b.drop 4 := by
      rw [jsSubstring]
      have hdr : (a ++ 'T' :: b).drop 13 = b.drop 4 := by
        rw [show (13 : Nat) = a.length + 5 by rw [hal], List.drop_append]
        rw [List.drop_succ_cons]
      rw [hdr]
      have hl : (b.drop 4).length = 2 := by simp [hbl]
      exact List.take_of_length_le (by omega)
    rw [h1]
    exact parseIntStr_digits (hdigb 4)
      (ne_nil_of_len 2 (by simp [hbl]) (by omega))

/-- Claim C4: for every zoned rule text matching the start-declaration
pattern, the parser builds `dtstart` by interpreting the 8+6 civil digit
fields directly as UTC, ignoring the zone identifier: two texts differing
only in the TZID value yield the same dtstart instant. -/
theorem claim_c4 (z1 z2 a b rest : List Char) (st1 st2 : Option HMS) (sys : Int)
    (o1 o2 : Options)
    (hz1 : z1 ≠ []) (hz1c : ':' ∉ z1) (hz2 : z2 ≠ []) (hz2c : ':' ∉ z2)
    (ha : ∀ c ∈ a, c.isDigit) (hal : a.length = 8)
    (hb : ∀ c ∈ b, c.isDigit) (hbl : b.length = 6)
    (hp1 : parseRRuleStringC (mkRuleText z1 (a ++ 'T' :: b) rest) st1 sys
      = some (some o1))
    (hp2 : parseRRuleStringC (mkRuleText z2 (a ++ 'T' :: b) rest) st2 sys
      = some (some o2)) :
    o1.dtstart = fromObjectUTC (.int (digitsVal (a.take 4)))
        (.int (digitsVal ((a.drop 4).take 2))) (.int (digitsVal (a.drop 6)))
        (.int (digitsVal (b.take 2))) (.int (digitsVal ((b.drop 2).take 2)))
        (.int (digitsVal (b.drop 4))) ∧
      o1.dtstart = o2.dtstart := by
  obtain ⟨e1, e2, e3, e4, e5, e6⟩ := dateFieldVals a b ha hal hb hbl
  have h1 := parseC_tmpl_dtstart z1 a b rest st1 sys o1 hz1 hz1c ha hal hb hbl hp1
  have h2 := parseC_tmpl_dtstart z2 a b rest st2 sys o2 hz2 hz2c ha hal hb hbl hp2
  rw [e1, e2, e3, e4, e5, e6] at h1 h2
  exact ⟨h1, h1.trans h2.symm⟩

theorem claim_c4_witness :
    parseRRuleStringC (mkRuleText ['A'] ("20240929".toList ++ 'T' :: "044500".toList)
        "FREQ=DAILY".toList) stRef 0 = some (some optsC4) ∧
    parseRRuleStringC (mkRuleText ['B'] ("20240929".toList ++ 'T' :: "044500".toList)
        "FREQ=DAILY".toList) stRef 0 = some (some optsC4) ∧
    (optsC4.dtstart = fromObjectUTC (.int 2024) (.int 9) (.int 29)
        (.int 4) (.int 45) (.int 0) ∧
      optsC4.dtstart = optsC4.dtstart) :=
  ⟨by decide, by decide,
    claim_c4 ['A'] ['B'] "20240929".toList "044500".toList "FREQ=DAILY".toList
      stRef stRef 0 optsC4 optsC4 (by decide) (by decide) (by decide) (by decide)
      (by decide) (by decide) (by decide) (by decide) (by decide) (by decide)⟩

theorem stepC_untl_eq {sys : Int} {o : Options} {p : List Char} {o' : Options}
    (h : stepC sys o p = some o') (hk : keyOf p = untilKey) :
    ∃ w, valOf p = some w ∧ o'.untl = some (classUntilOf w sys) := by
  simp only [stepC] at h
  rw [if_neg (by rw [hk]; decide), if_neg (by rw [hk]; decide), if_pos hk] at h
  rcases hv : valOf p with _ | w <;> rw [hv] at h
  · cases h
  · cases h
    exact ⟨w, rfl, rfl⟩

theorem stepC_untl_undef {sys : Int} {o : Options} {p : List Char}
    (hk : keyOf p = untilKey) (hv : valOf p = none) :
    stepC sys o p = none := by
  simp only [stepC]
  rw [if_neg (by rw [hk]; decide), if_neg (by rw [hk]; decide), if_pos hk, hv]

theorem stepH_untl_eq {o : Options} {p : List Char} {o' : Options}
    (h : stepH o p = some o') (hk : keyOf p = untilKey) :
    ∃ w, valOf p = some w ∧ o'.untl = some (hookUntilOf w) := by
  simp only [stepH] at h
  rw [if_neg (by rw [hk]; decide), if_neg (by rw [hk]; decide), if_pos hk] at h
  rcases hv : valOf p with _ | w <;> rw [hv] at h
  · cases h
  · cases h
    exact ⟨w, rfl, rfl⟩

theorem stepH_untl_undef {o : Options} {p : List Char}
    (hk : keyOf p = untilKey) (hv : valOf p = none) :
    stepH o p = none := by
  simp only [stepH]
  rw [if_neg (by rw [hk]; decide), if_neg (by rw [hk]; decide), if_pos hk, hv]

theorem stepH_untl_ne {o : Options} {p : List Char} {o' : Options}
    (h : stepH o p = some o') (hk : keyOf p ≠ untilKey) :
    o'.untl = o.untl := by
  simp only [stepH] at h
  split_ifs at h with h1 h2 h3 <;>
    first
      | exact absurd h3 hk
      | (cases h; rfl)
      | (rcases hv : valOf p with _ | v <;> rw [hv] at h <;> cases h <;> rfl)

/-- The fold's final `untl`: the last UNTIL part wins, and its value must
have been present (else the fold would have raised). -/
theorem runPartsC_untl {sys : Int} :
    ∀ {parts : List (List Char)} {o o' : Options},
      runPartsC sys o parts = some o' →
      (match lastValueOf untilKey parts with
       | none => o'.untl = o.untl
       | some none => False
       | some (some w) => o'.untl = some (classUntilOf w sys)) := by
  intro parts
  induction parts with
  | nil =>
    intro o o' h
    cases h
    simp [lastValueOf]
  | cons p ps ih =>
    intro o o' h
    rw [runPartsC] at h
    rcases hs : stepC sys o p with _ | o1
    · rw [hs] at h; cases h
    · rw [hs] at h
      have htail := ih h
      rw [lastValueOf]
      rcases hlast : lastValueOf untilKey ps with _ | v
      · rw [hlast] at htail
        by_cases hk : keyOf p = untilKey
        · rw [if_pos hk]
          rcases hv : valOf p with _ | w
          · exact absurd hs (by rw [stepC_untl_undef hk hv]; simp)
          · obtain ⟨w', hv', hu⟩ := stepC_untl_eq hs hk
            rw [hv] at hv'
            have hw : w' = w := Option.some.inj hv'.symm
            subst hw
            dsimp only
            rw [htail, hu]
        · rw [if_neg hk]
          dsimp only
          rw [htail, stepC_untl_ne hs hk]
      · rw [hlast] at htail
        rcases v with _ | w <;> exact htail

theorem runPartsH_untl :
    ∀ {parts : List (List Char)} {o o' : Options},
      runPartsH o parts = some o' →
      (match lastValueOf untilKey parts with
       | none => o'.untl = o.untl
       | some none => False
       | some (some w) => o'.untl = some (hookUntilOf w)) := by
  intro parts
  induction parts with
  | nil =>
    intro o o' h
    cases h
    simp [lastValueOf]
  | cons p ps ih =>
    intro o o' h
    rw [runPartsH] at h
    rcases hs : stepH o p with _ | o1
    · rw [hs] at h; cases h
    · rw [hs] at h
      have htail := ih h
      rw [lastValueOf]
      rcases hlast : lastValueOf untilKey ps with _ | v
      · rw [hlast] at htail
        by_cases hk : keyOf p = untilKey
        · rw [if_pos hk]
          rcases hv : valOf p with _ | w
          · exact absurd hs (by rw [stepH_untl_undef hk hv]; simp)
          · obtain ⟨w', hv', hu⟩ := stepH_untl_eq hs hk
            rw [hv] at hv'
            have hw : w' = w := Option.some.inj hv'.symm
            subst hw
            dsimp only
            rw [htail, hu]
        · rw [if_neg hk]
          dsimp only
          rw [htail, stepH_untl_ne hs hk]
      · rw [hlast] at htail
        rcases v with _ | w <;> exact htail

/-- Claim C2, amended: when the rule carries an UNTIL key with value `w`,
the class parser builds `until` as `classUntilOf w sysOff` — the civil
fields interpreted in the host's local zone via the JS Date constructor,
each of hour/minute/second independently defaulting to 23/59/59 when absent
or zero — while the hook parser builds `hookUntilOf w` — the same fields
and componentwise defaults interpreted as UTC with Luxon validation. -/
theorem claim_c2 (s : List Char) (st1 st2 : Option HMS) (sys : Int)
    (o oh : Options) (r w : List Char)
    (hp : parseRRuleStringC s st1 sys = some (some o))
    (hph : parseRRuleStringH s st2 = some (some oh))
    (hr : matchRRule s = some r)
    (hlast : lastValueOf untilKey (splitOnCh ';' r) = some (some w)) :
    o.untl = some (classUntilOf w sys) ∧ oh.untl = some (hookUntilOf w) := by
  constructor
  · obtain ⟨zid, ds, r', hd, hr', hrun⟩ := parseC_run hp
    rw [hr] at hr'
    have hrr : r' = r := (Option.some.inj hr').symm
    subst hrr
    have hu := runPartsC_untl hrun
    rw [hlast] at hu
    exact hu
  · obtain ⟨zid, ds, r', hd, hr', hrun⟩ := parseH_run hph
    rw [hr] at hr'
    have hrr : r' = r := (Option.some.inj hr').symm
    subst hrr
    have hu := runPartsH_untl hrun
    rw [hlast] at hu
    exact hu

/-- Claim C2, counterexample: for `UNTIL=20241001T120000` in a host zone at
offset +60, the class parser builds the instant 1727783999
(2024-10-01 12:59:59 at +01:00 — minutes and seconds defaulted to 59
because they parse to the falsy 0, and the civil fields were read in the
host zone), while the claim's UTC reading of the civil fields (time portion
present and non-zero, so no default) is 1727784000 (2024-10-01 12:00:00Z). -/
theorem claim_c2_counterexample :
    parseRRuleStringC ruleUntil stRef 60 = some (some optsUntil60) ∧
      optsUntil60.untl = some (some 1727783999) ∧
      claimUntilUTC 2024 10 1 12 0 0 = some 1727784000 ∧
      (some 1727783999 : Option Int) ≠ some 1727784000 := by
  exact ⟨by decide, rfl, by decide, by decide⟩

theorem claim_c2_witness :
    parseRRuleStringC ruleUntil stRef 60 = some (some optsUntil60) ∧
      parseRRuleStringH ruleUntil stRef = some (some optsUntilH) ∧
      (optsUntil60.untl = some (classUntilOf "20241001T120000".toList 60) ∧
        optsUntilH.untl = some (hookUntilOf "20241001T120000".toList)) :=
  ⟨by decide, by decide,
    claim_c2 ruleUntil stRef stRef 60 optsUntil60 optsUntilH
      "FREQ=DAILY;UNTIL=20241001T120000".toList "20241001T120000".toList
      (by decide) (by decide) (by decide) (by decide)⟩

/-! ### The monthly Nth-weekday iteration (claim C6) -/

/-- `daysFromCivil` is linear in the day argument. -/
theorem daysFromCivil_day (y m d : Int) :
    daysFromCivil y m d = daysFromCivil y m 1 + (d - 1) := by
  simp only [daysFromCivil]
  ring

theorem daysInMonth_bounds (y m : Int) :
    1 ≤ daysInMonth y m ∧ daysInMonth y m ≤ 31 := by
  simp only [daysInMonth]
  split_ifs <;> omega

theorem matchOpt_toList (x : Option DT) (f : DT → Option ZDT) :
    (match x with
     | some t => [f t]
     | none => []) = (x.map f).toList := by
  cases x <;> rfl

/-- The generator's occurrence selection coincides with the claim's
1-based-index / last / out-of-range rule. -/
theorem pickOccurrence_spec (k : Int) (l : List DT) :
    pickOccurrence (some (.int k)) l = specSelect k l := by
  rw [pickOccurrence, specSelect]
  by_cases h1 : 0 < k ∧ k ≤ (l.length : Int)
  · rw [if_pos h1]
    have h1' : 1 ≤ k ∧ k ≤ (l.length : Int) := by omega
    rw [if_pos h1']
  · rw [if_neg h1]
    have h1' : ¬(1 ≤ k ∧ k ≤ (l.length : Int)) := by omega
    rw [if_neg h1']
    by_cases h2 : k = -1 ∧ l.length > 0
    · have h2' : k = -1 ∧ l ≠ [] :=
        ⟨h2.1, by have := h2.2; intro he; subst he; simp at this⟩
      rw [if_pos h2, if_pos h2']
    · have h2' : ¬(k = -1 ∧ l ≠ []) := by
        rintro ⟨hk, hne⟩
        refine h2 ⟨hk, ?_⟩
        rcases l with _ | _
        · exact absurd rfl hne
        · simp
      rw [if_neg h2, if_neg h2']

theorem weekdayScan_stop (w : Option Int) (off mEnd : Int) (fuel : Nat)
    (base : Int) (h : mEnd < base) :
    weekdayScan w off mEnd fuel base = [] := by
  cases fuel with
  | zero => rfl
  | succ f =>
    rw [weekdayScan, if_neg (by omega)]

/-- The while-loop month scan collects exactly one candidate per day of the
scanned span. -/
theorem weekdayScan_range (w off : Int) :
    ∀ (c fuel : Nat) (base : Int), c ≤ fuel →
      weekdayScan (some w) off (base + (c : Int) * 86400 - 1) fuel base
        = (List.range c).filterMap fun (i : Nat) =>
            if wdTargetMatch (some w)
                (((base + (i : Int) * 86400 + off * 60).ediv 86400 + 3).emod 7 + 1)
            then some (⟨base + (i : Int) * 86400, off⟩ : DT) else none := by
  intro c
  induction c with
  | zero =>
    intro fuel base _
    rw [weekdayScan_stop _ _ _ _ _ (by omega)]
    rfl
  | succ c ih =>
    intro fuel base hf
    rcases fuel with _ | f
    · omega
    rw [weekdayScan, if_pos (by push_cast; omega)]
    rw [show ((c + 1 : Nat) : Int) = (c : Int) + 1 by push_cast; ring]
    have hme : base + ((c : Int) + 1) * 86400 - 1
        = (base + 86400) + (c : Int) * 86400 - 1 := by
      ring
    rw [hme, ih f (base + 86400) (by omega)]
    rw [List.range_succ_eq_map, List.filterMap_cons, List.filterMap_map]
    have harith : ∀ i : Nat, base + ((Nat.succ i : Nat) : Int) * 86400
        = (base + 86400) + (i : Int) * 86400 := by
      intro i
      push_cast
      ring
    have htail : (List.range c).filterMap
          ((fun (i : Nat) =>
            if wdTargetMatch (some w)
                (((base + (i : Int) * 86400 + off * 60).ediv 86400 + 3).emod 7 + 1)
            then some (⟨base + (i : Int) * 86400, off⟩ : DT) else none) ∘ Nat.succ)
        = (List.range c).filterMap fun (i : Nat) =>
            if wdTargetMatch (some w)
                ((((base + 86400) + (i : Int) * 86400 + off * 60).ediv 86400 + 3).emod 7 + 1)
            then some (⟨(base + 86400) + (i : Int) * 86400, off⟩ : DT) else none := by
      apply List.filterMap_congr
      intro i _
      simp only [Function.comp]
      rw [harith i]
    rw [htail]
    by_cases hm : wdTargetMatch (some w)
        (((base + off * 60).ediv 86400 + 3).emod 7 + 1) = true
    · rw [if_pos hm]
      have h0 : (if wdTargetMatch (some w)
            (((base + ((0 : Nat) : Int) * 86400 + off * 60).ediv 86400 + 3).emod 7 + 1)
          then some (⟨base + ((0 : Nat) : Int) * 86400, off⟩ : DT) else none)
          = some (⟨base, off⟩ : DT) := by
        simp only [Nat.cast_zero, zero_mul, add_zero]
        rw [if_pos hm]
      rw [h0]
      rfl
    · rw [if_neg hm]
      have h0 : (if wdTargetMatch (some w)
            (((base + ((0 : Nat) : Int) * 86400 + off * 60).ediv 86400 + 3).emod 7 + 1)
          then some (⟨base + ((0 : Nat) : Int) * 86400, off⟩ : DT) else none)
          = none := by
        simp only [Nat.cast_zero, zero_mul, add_zero]
        rw [if_neg hm]
      rw [h0]
      rfl

/-- The generator's month scan from `startOf("month")` to `endOf("month")`
enumerates exactly the dates of that month whose weekday (0=Sunday
numbering) equals the target — the claim's enumeration. -/
theorem weekdayScan_spec (y m w off : Int) :
    weekdayScan (some w) off (mkLocal y m (daysInMonth y m) 23 59 59 off).instant 32
      (mkLocal y m 1 0 0 0 off).instant = specWeekdayDates y m w off := by
  obtain ⟨hD1, hD31⟩ := daysInMonth_bounds y m
  have hmE : (mkLocal y m (daysInMonth y m) 23 59 59 off).instant
      = (mkLocal y m 1 0 0 0 off).instant
        + (((daysInMonth y m).toNat : Int)) * 86400 - 1 := by
    simp only [mkLocal]
    rw [daysFromCivil_day y m (daysInMonth y m),
      Int.toNat_of_nonneg (by omega : (0 : Int) ≤ daysInMonth y m)]
    ring
  rw [hmE, weekdayScan_range w off (daysInMonth y m).toNat 32
    (mkLocal y m 1 0 0 0 off).instant (by omega)]
  rw [specWeekdayDates]
  apply List.filterMap_congr
  intro i hi
  have hbi : (mkLocal y m 1 0 0 0 off).instant + (i : Int) * 86400
      = daysFromCivil y m ((i : Int) + 1) * 86400 - off * 60 := by
    simp only [mkLocal]
    rw [daysFromCivil_day y m ((i : Int) + 1)]
    ring
  have hdiv : ((mkLocal y m 1 0 0 0 off).instant + (i : Int) * 86400 + off * 60).ediv 86400
      = daysFromCivil y m ((i : Int) + 1) := by
    rw [hbi]
    have hc : daysFromCivil y m ((i : Int) + 1) * 86400 - off * 60 + off * 60
        = daysFromCivil y m ((i : Int) + 1) * 86400 := by ring
    rw [hc]
    simp only [ediv_eq]
    omega
  have hcond : (wdTargetMatch (some w)
        ((((mkLocal y m 1 0 0 0 off).instant + (i : Int) * 86400 + off * 60).ediv 86400
          + 3).emod 7 + 1) = true)
      ↔ (specWeekdayNum y m ((i : Int) + 1) = w) := by
    rw [hdiv]
    simp only [wdTargetMatch, decide_eq_true_eq, specWeekdayNum]
    have he : ((daysFromCivil y m ((i : Int) + 1) + 3).emod 7 + 1).emod 7
        = (daysFromCivil y m ((i : Int) + 1) + 4).emod 7 := by
      simp only [emod_eq]
      omega
    rw [he]
  have hval : (⟨(mkLocal y m 1 0 0 0 off).instant + (i : Int) * 86400, off⟩ : DT)
      = mkLocal y m ((i : Int) + 1) 0 0 0 off := by
    have hinst : (mkLocal y m ((i : Int) + 1) 0 0 0 off).instant
        = (mkLocal y m 1 0 0 0 off).instant + (i : Int) * 86400 := by
      rw [hbi]
      simp only [mkLocal]
      ring
    rw [show (mkLocal y m ((i : Int) + 1) 0 0 0 off)
        = ⟨(mkLocal y m ((i : Int) + 1) 0 0 0 off).instant, off⟩ from rfl, hinst]
  rw [if_congr hcond (by rw [hval]) rfl]

/-- Claim C6: for a MONTHLY rule with byWeekday and bySetPosition both set
and no until bound, each iteration of the generator enumerates every date
of the cursor's month whose weekday equals byWeekday's head, emits the
element selected by bySetPosition's head (1-based; last for -1; nothing
when out of range), and advances the cursor by `interval` months regardless
of whether anything was emitted. -/
theorem claim_c6 (o : Options) (tz : Int) (st : Option HMS)
    (w : Int) (ws : List Int) (k : Int) (ps : List JSNum) (n : Nat) (d : DT)
    (hby : o.byweekday = some (w :: ws)) (hpos : o.bysetpos = some (.int k :: ps))
    (hu : o.untl = none) :
    monthlyLoopC o tz st (n + 1) (some d) =
      ((specSelect k (specWeekdayDates (civilAt d).year (civilAt d).month w
          d.offset)).map (fun t => projectItem tz st (some t))).toList
        ++ monthlyLoopC o tz st n (plusMonths o.interval (some d)) := by
  rw [monthlyLoopC]
  rw [if_neg (by rw [hu]; simp [untilHitC])]
  have hsome : o.byweekday.isSome ∧ o.bysetpos.isSome := by
    rw [hby, hpos]; exact ⟨rfl, rfl⟩
  rw [if_pos hsome]
  dsimp only
  have htw : o.byweekday.bind List.head? = some w := by rw [hby]; rfl
  have hocc : o.bysetpos.bind List.head? = some (.int k) := by rw [hpos]; rfl
  rw [htw, hocc]
  have hms : startOfMonth (some d)
      = some (mkLocal (civilAt d).year (civilAt d).month 1 0 0 0 d.offset) := rfl
  have hme : endOfMonth (some d)
      = some (mkLocal (civilAt d).year (civilAt d).month
          (daysInMonth (civilAt d).year (civilAt d).month) 23 59 59 d.offset) := rfl
  rw [hms, hme]
  dsimp only
  have hoff : (mkLocal (civilAt d).year (civilAt d).month 1 0 0 0 d.offset).offset
      = d.offset := rfl
  rw [hoff]
  rw [weekdayScan_spec (civilAt d).year (civilAt d).month w d.offset]
  rw [pickOccurrence_spec]
  congr 1
  exact matchOpt_toList _ _

theorem claim_c6_witness :
    parseRRuleStringC ruleNthMonday stRef 0 = some (some optsNth) ∧
      monthlyLoopC optsNth 0 stRef 1 (some dNth) =
        ((specSelect 1 (specWeekdayDates (civilAt dNth).year (civilAt dNth).month 1
            dNth.offset)).map (fun t => projectItem 0 stRef (some t))).toList
          ++ monthlyLoopC optsNth 0 stRef 0 (plusMonths optsNth.interval (some dNth)) :=
  ⟨by decide, claim_c6 optsNth 0 stRef 1 [] 1 [] 0 dNth rfl rfl rfl⟩

end RRuleTZ
